import Mathlib

/-!
Verification of the Galvonium laser-galvo rendering core.

This file gives a shallow embedding of the renderer data path of the
`galvonium` Arduino firmware (files `src/arduino/src/renderer/buffers.h`,
`interpolation.cpp`, `renderer.cpp`, `types.h`, `config.h`) and settles the
frozen claims about it.

Machine-integer conventions of the embedding:
* `int16_t` values are carried as `Int` and renormalised into
  `[-32768, 32767]` by `i16` after every arithmetic operation that the C
  code performs on `int16_t` (AVR `int` is 16 bits wide, so all arithmetic
  in the sources is 16-bit).
* conversion of an `int` to `uint8_t` is `u8` (reduction mod 256);
* C integer division truncates toward zero: `Int.tdiv`;
* `>>` on a (possibly negative) `int16_t` is the arithmetic shift the AVR
  compiler generates, i.e. floor division by a power of two: `Int.fdiv`.
-/

/-- Wrap an integer into the `int16_t` range, the way 16-bit two's-complement
arithmetic does. -/
def i16 (z : Int) : Int := (z + 32768) % 65536 - 32768

/-- Conversion of an integer to `uint8_t` (reduction modulo 256). -/
def u8 (z : Int) : Nat := (z % 256).toNat

/-- Arithmetic right shift of an `int16_t` value: floor division by `2 ^ n`. -/
def sar (v : Int) (n : Nat) : Int := Int.fdiv v (2 ^ n)

/-- The `ABS` macro of `types.h` applied to an `int16_t` operand, with the
result again stored in 16 bits (so `ABS(-32768)` wraps back to `-32768`). -/
def abs16 (v : Int) : Int := i16 (if v < 0 then -v else v)

/-- Q12.4 fixed-point point (`point_q12_4_t` of `types.h`): a pair of
`int16_t` scalars. -/
structure PointQ where
  x : Int
  y : Int
deriving DecidableEq, Repr

/-- Componentwise `int16_t` addition (`point_q12_4_t::operator+`). -/
def addQ (a b : PointQ) : PointQ := ⟨i16 (a.x + b.x), i16 (a.y + b.y)⟩

/-- Componentwise `int16_t` subtraction (`point_q12_4_t::operator-`). -/
def subQ (a b : PointQ) : PointQ := ⟨i16 (a.x - b.x), i16 (a.y - b.y)⟩

/-- Componentwise arithmetic right shift (`point_q12_4_t::operator>>`). -/
def sarQ (a : PointQ) (n : Nat) : PointQ := ⟨sar a.x n, sar a.y n⟩

/-! ## Step ring buffer (`step_ring_buf_16_t`, `renderer/buffers.h`)

Sixteen Q12.4 slots, the sixteen laser bits packed into one 16-bit word
(`flag_buf`), and `head`/`tail` counters.  In every reachable state the
counters are below 16 (they are only ever advanced masked by
`STEP_RING_BUFFER_MASK = 15`), so the embedding carries them as `Fin 16`. -/

structure StepRing where
  point_buf : Fin 16 → PointQ
  flag_buf : Nat
  head : Fin 16
  tail : Fin 16

/-- Buffer is empty when `head == tail` (`step_ring_buf_16_t::is_empty`). -/
def StepRing.is_empty (r : StepRing) : Bool := r.head = r.tail

/-- Buffer is full when `((head + 1) & 0x0F) == tail`
(`step_ring_buf_16_t::is_full`). -/
def StepRing.is_full (r : StepRing) : Bool := r.head + 1 = r.tail

/-- Number of elements `(head - tail) & 0x0F` (`step_ring_buf_16_t::size`). -/
def StepRing.size (r : StepRing) : Nat := (r.head - r.tail).val

/-- `step_ring_buf_16_t::push`: rejected when full; otherwise the point is
stored at slot `head`, the laser bit at position `head` of `flag_buf` is
cleared then set from `flag`, and `head` advances modulo 16.  Returns the
success flag and the new buffer state. -/
def StepRing.push (r : StepRing) (point : PointQ) (flag : Bool) :
    Bool × StepRing :=
  if r.is_full then (false, r)
  else
    (true,
      { point_buf := Function.update r.point_buf r.head point
        flag_buf := (r.flag_buf &&& (65535 ^^^ (1 <<< r.head.val))) |||
          ((if flag then 1 else 0) <<< r.head.val)
        head := r.head + 1
        tail := r.tail })

/-- `step_ring_buf_16_t::pop`: rejected when empty; otherwise yields the point
at slot `tail` and bit `tail` of `flag_buf`, and advances `tail` modulo 16.
Returns the success flag, the values written through the out-parameters
(`none` when rejected), and the new buffer state. -/
def StepRing.pop (r : StepRing) : Bool × Option (PointQ × Bool) × StepRing :=
  if r.is_empty then (false, none, r)
  else
    (true, some (r.point_buf r.tail, (r.flag_buf &&& (1 <<< r.tail.val)) ≠ 0),
      { point_buf := r.point_buf
        flag_buf := r.flag_buf
        head := r.head
        tail := r.tail + 1 })

/-! ## Waypoint buffer (`coord8_point_buf_t`, `renderer/buffers.h`) -/

/-- An 8-bit waypoint (`point_coord8_t` of `types.h`): three bytes
`x`, `y`, `flags`. -/
structure PointC8 where
  x : Nat
  y : Nat
  flags : Nat
deriving DecidableEq, Repr

/-- `MAX_POINTS = MAX_BUFFER_INDEX - 1 = 63` (`config.h`). -/
def MAX_POINTS : Nat := 63

/-- `BLANKING_BIT = 0x40` (`types.h`): set means the laser is off. -/
def BLANKING_BIT : Nat := 64

/-- The `IS_LASER_ON` macro of `types.h`: `!(flags & BLANKING_BIT)`. -/
def IS_LASER_ON (flags : Nat) : Bool := ¬ (flags &&& BLANKING_BIT ≠ 0)

/-- `coord8_point_buf_t`: `MAX_POINTS` waypoints plus a `point_count`. -/
structure PointBuf where
  points : Fin 63 → PointC8
  point_count : Nat

/-- `coord8_point_buf_t::clear`: `memset(points, 0, MAX_POINTS)` zeroes only
the first 63 bytes of the 189-byte array, i.e. the first 63 / 3 = 21
waypoints (each `point_coord8_t` is three bytes, and AVR packs them without
padding); `point_count` is set to 0.  Waypoints at indices 21 and above are
left untouched. -/
def PointBuf.clear (b : PointBuf) : PointBuf :=
  { points := fun i => if i.val < 21 then ⟨0, 0, 0⟩ else b.points i
    point_count := 0 }

/-- `coord8_point_buf_t::get_point`: out of range indices are rejected (the
out-parameter is not written, modelled by `none`). -/
def PointBuf.get_point (b : PointBuf) (index : Nat) : Option PointC8 :=
  if h : index < 63 then some (b.points ⟨index, h⟩) else none

/-- `coord8_point_buf_t::set_laser_state`: rejected when
`index >= MAX_POINTS`; otherwise the waypoint's flags byte is overwritten
with `BLANKING_BIT` when `state` is true and `0` otherwise. -/
def PointBuf.set_laser_state (b : PointBuf) (index : Nat) (state : Bool) :
    PointBuf :=
  if h : index < 63 then
    let p := b.points ⟨index, h⟩
    let p' := { p with flags := if state then BLANKING_BIT else 0 }
    { b with points := Function.update b.points ⟨index, h⟩ p' }
  else b

/-- `coord8_point_buf_t::get_laser_state`: returns `flags & BLANKING_BIT`
converted to `bool`; out-of-range indices yield `false`. -/
def PointBuf.get_laser_state (b : PointBuf) (index : Nat) : Bool :=
  if h : index < 63 then (b.points ⟨index, h⟩).flags &&& BLANKING_BIT ≠ 0
  else false

/-! ## Interpolator (`renderer/interpolation.cpp`, `interpolation.h`)

The C state lives in the globals `interp : interpolation_t` and
`transition : transition_t *`; the embedding passes both explicitly.
`transition_t` here is the revision that `renderer.cpp` compiles against
(two-argument constructor, `current_point` initialised to `start_point`). -/

inductive IState where
  | ready
  | first
  | interpolate
  | last
  | finished
deriving DecidableEq, Repr

/-- `interpolation_t`: the per-transition interpolator state. -/
structure Interp where
  step : PointQ
  current_step : Nat
  total_steps : Nat
  acc_factor : Nat
  dec_factor : Nat
  state : IState
deriving DecidableEq, Repr

/-- `transition_t` (revision used by `renderer.cpp`): start, current and end
points; the constructor sets `current_point = start_point`. -/
structure Transition where
  start_point : PointQ
  current_point : PointQ
  end_point : PointQ
deriving DecidableEq, Repr

/-- The two-argument `transition_t` constructor. -/
def mkTransition (s e : PointQ) : Transition := ⟨s, s, e⟩

/-- Parameter clamping in `interp_init`:
`if (v < lo || v > hi) v = (v < lo) ? lo : hi`. -/
def clampParam (lo hi v : Nat) : Nat :=
  if v < lo ∨ v > hi then (if v < lo then lo else hi) else v

/-- `MIN_STEP_SIZE = 1`, `MAX_STEP_SIZE = 50`, `MIN_ACC_FACTOR = 0`,
`MAX_ACC_FACTOR = 7`, `MIN_DEC_FACTOR = 0`, `MAX_DEC_FACTOR = 7`
(`config.h`). -/
def MAX_STEP_SIZE : Nat := 50

/-- `interp_init` (lines 19-103 of `interpolation.cpp`).  The arguments are
the `uint8_t` parameters; the null-transition check does not arise in the
embedding (the transition is passed by value).  Returns `none` exactly when
the code returns `false` through one of the division-by-zero guards, and
otherwise the interpolator state it leaves in the global `interp`.
`COORD8_TO_Q12_4(step_size)` is `16 * step_size` (no 16-bit overflow:
`step_size <= 50` after clamping).  `delta_x / interp.step.x` is C `int16_t`
division (truncation toward zero) whose result is narrowed to the `uint8_t`
field `total_steps`. -/
def interp_init (t : Transition) (step_size acc_factor dec_factor : Nat) :
    Option Interp :=
  let ss := clampParam 1 MAX_STEP_SIZE (step_size % 256)
  let af := clampParam 0 7 (acc_factor % 256)
  let df := clampParam 0 7 (dec_factor % 256)
  let dx := i16 (t.end_point.x - t.start_point.x)
  let dy := i16 (t.end_point.y - t.start_point.y)
  let maxd := max (abs16 dx) (abs16 dy)
  let sq : Int := 16 * ss
  if maxd < sq then
    some { step := subQ t.end_point t.start_point, current_step := 0,
           total_steps := 1, acc_factor := 0, dec_factor := 0, state := .last }
  else if abs16 dx = abs16 dy then
    if sq = 0 then none
    else some { step := ⟨sq, sq⟩, current_step := 0,
                total_steps := u8 (Int.tdiv dx sq),
                acc_factor := af, dec_factor := df, state := .first }
  else if abs16 dx > abs16 dy then
    if sq = 0 then none
    else
      let ts := u8 (Int.tdiv dx sq)
      some { step := ⟨sq, if 0 < ts then i16 (Int.tdiv dy ts) else 0⟩,
             current_step := 0, total_steps := ts,
             acc_factor := af, dec_factor := df, state := .first }
  else
    if sq = 0 then none
    else
      let ts := u8 (Int.tdiv dy sq)
      some { step := ⟨if 0 < ts then i16 (Int.tdiv dx ts) else 0, sq⟩,
             current_step := 0, total_steps := ts,
             acc_factor := af, dec_factor := df, state := .first }

/-- Body of the `INTERP_STATE_FIRST` case of `interp_next_step`: while
`acc_factor > 0` the current point is set to
`start_point + (step >> acc_factor)` (the shift uses the value of
`acc_factor` before the decrement); once `acc_factor` reaches 0 the normal
first step `start_point + step` is taken, `current_step` is incremented and
the state becomes `INTERP_STATE_INTERPOLATE`. -/
def firstStep (ip : Interp) (t : Transition) : Bool × Interp × Transition :=
  if 0 < ip.acc_factor then
    (true, { ip with acc_factor := ip.acc_factor - 1 },
      { t with current_point := addQ t.start_point (sarQ ip.step ip.acc_factor) })
  else
    let ip' := { ip with state := IState.interpolate,
                         current_step := (ip.current_step + 1) % 256 }
    (true, ip', { t with current_point := addQ t.start_point ip.step })

/-- Body of the `INTERP_STATE_LAST` case of `interp_next_step`: while
`dec_factor > 0` the step is halved in place (`step >>= 1`, an arithmetic
shift) and added to the current point; once `dec_factor` reaches 0 the
current point snaps to `end_point` and the state becomes
`INTERP_STATE_FINISHED`. -/
def lastStep (ip : Interp) (t : Transition) : Bool × Interp × Transition :=
  if 0 < ip.dec_factor then
    let s := sarQ ip.step 1
    (true, { ip with step := s, dec_factor := ip.dec_factor - 1 },
      { t with current_point := addQ t.current_point s })
  else
    (true, { ip with state := .finished },
      { t with current_point := t.end_point })

/-- `interp_next_step` (lines 105-151 of `interpolation.cpp`).  The C switch
falls through: `READY` runs the `FIRST` body, and `INTERPOLATE` runs the
`LAST` body in the same call when `current_step < total_steps - 1` fails
(the comparison promotes both `uint8_t` fields to `int`, hence the `Int`
casts).  Returns the C return value together with the updated interpolator
and transition. -/
def interp_next_step (ip : Interp) (t : Transition) :
    Bool × Interp × Transition :=
  match ip.state with
  | .ready => firstStep { ip with state := .first } t
  | .first => firstStep ip t
  | .interpolate =>
      if (ip.current_step : Int) < (ip.total_steps : Int) - 1 then
        (true, { ip with current_step := (ip.current_step + 1) % 256 },
          { t with current_point := addQ t.current_point ip.step })
      else lastStep { ip with state := .last } t
  | .last => lastStep ip t
  | .finished => (false, ip, t)

/-- `interp_active` (`interpolation.cpp`): the interpolator is active while
its state is not `INTERP_STATE_FINISHED`. -/
def interp_active (ip : Interp) : Bool := ip.state ≠ .finished

/-- The samples the interpolator emits: repeatedly call `interp_next_step`
and record `current_point` after every call that returns `true`, stopping at
the first `false` (or when the fuel runs out; fuel 600 is ample, a run makes
at most `7 + 255 + 7 + 1` calls that return `true`). -/
def interpRun : Nat → Interp → Transition → List PointQ
  | 0, _, _ => []
  | fuel + 1, ip, t =>
      match interp_next_step ip t with
      | (false, _, _) => []
      | (true, ip', t') => t'.current_point :: interpRun fuel ip' t'

/-- Iterate `interp_next_step` a given number of times, keeping only the
state (a `false` return leaves the state unchanged, as in the code). -/
def interpIter : Nat → Interp × Transition → Interp × Transition
  | 0, s => s
  | n + 1, (ip, t) =>
      let r := interp_next_step ip t
      interpIter n (r.2.1, r.2.2)

/-! ## Renderer (`renderer/renderer.cpp`) -/

/-- `renderer_state_t` (`renderer.h`, revision matching `renderer.cpp`). -/
inductive RState where
  | first_point
  | next_point
  | new_transition
  | interpolate
  | buffer_finished
  | buffer_empty
  | interp_error
deriving DecidableEq, Repr

/-- The slice of `Renderer` state that `handle_buffer_finished` and
`swap_buffers` touch: which buffer is active, the walk index into the active
buffer, the pending-swap flag and the state-machine state. -/
structure SwapState where
  activeIsA : Bool
  point_buf_index : Nat
  swap_requested : Bool
  renderer_state : RState
deriving DecidableEq, Repr

/-- `Renderer::swap_buffers` (lines 43-58): unconditionally exchanges the
active and inactive buffer pointers (inside a critical section) and returns
`true`. -/
def swap_buffers (s : SwapState) : SwapState :=
  { s with activeIsA := ¬ s.activeIsA }

/-- `Renderer::handle_buffer_finished` (lines 151-165): the swap guard is the
constant `if (1)` (the comment reads `TODO: make this a parameter
(swap_requested)`), so the buffers are swapped unconditionally,
`point_buf_index` is reset to 0 and the state becomes `R_STATE_NEXT_POINT`;
`swap_requested` is neither consulted nor cleared. -/
def handle_buffer_finished (s : SwapState) : SwapState :=
  let s1 := swap_buffers s
  { s1 with point_buf_index := 0, renderer_state := .next_point }

/-- `LASER_ON_DWELL_TIME = 10`, `LASER_OFF_DWELL_TIME = 10` (`config.h`). -/
def LASER_ON_DWELL_TIME : Nat := 10

/-- Laser-off dwell, also 10 sub-steps. -/
def LASER_OFF_DWELL_TIME : Nat := 10

/-- `Renderer::calc_laser_dwell` (lines 167-179): the dwell counter is
`LASER_ON_DWELL_TIME` when the laser turns off, `LASER_OFF_DWELL_TIME` when
it turns on, and 0 when the state does not change. -/
def calc_laser_dwell (last_laser next_laser : Bool) : Nat :=
  if last_laser = true ∧ next_laser = false then LASER_ON_DWELL_TIME
  else if last_laser = false ∧ next_laser = true then LASER_OFF_DWELL_TIME
  else 0

/-- `COORD8_TO_Q12_4` applied to a waypoint: both byte coordinates are lifted
by `<< 4`. -/
def liftC8 (p : PointC8) : PointQ := ⟨16 * (p.x % 256), 16 * (p.y % 256)⟩

/-- `Renderer::get_next_point` (lines 181-224) acting on the active buffer
and `point_buf_index`.  Returns the C return value, the values written
through the out-parameters (`none` on the two early-return paths, which do
not write them; the local `new_point` is default-initialised to `(0,0,0)`,
visible only in the out-of-range-index corner where `get_point` rejects),
the new index and the new `buffer_status`.  Note that the call that reads
the last waypoint (`point_buf_index` reaching `point_count` after the
increment) has already written the out-parameters but returns `false`. -/
inductive BufStatus where
  | active
  | empty
  | finished
deriving DecidableEq, Repr

/-- See `Renderer::get_next_point` above. -/
def get_next_point (b : PointBuf) (point_buf_index : Nat) :
    Bool × Option (PointQ × Bool) × Nat × BufStatus :=
  if b.point_count = 0 then (false, none, point_buf_index, .empty)
  else if point_buf_index = b.point_count then
    (false, none, point_buf_index, .finished)
  else
    let new_point := match b.get_point point_buf_index with
      | some p => p
      | none => ⟨0, 0, 0⟩
    let out := (liftC8 new_point, decide (new_point.flags &&& BLANKING_BIT ≠ 0))
    let idx' := (point_buf_index + 1) % 256
    if idx' = b.point_count then (false, some out, idx', .finished)
    else (true, some out, idx', .active)

/-- The slice of `Renderer` state that `process_next_step` drives while one
transition is rendered: the dwell counter, the interpolator, the transition,
and `next_laser_state`. -/
structure TransState where
  dwell : Nat
  ip : Interp
  t : Transition
  next_laser_state : Bool
deriving DecidableEq, Repr

/-- `Renderer::process_next_step` (lines 226-299), on a tick where the step
ring is not full (the ring-full branch defers without pushing or changing
any of these fields, so the sequence of pushed samples is unaffected by it).
Returns the C return value, the sample pushed into the step ring on this
call (`none` when nothing is pushed), and the new state: a pending dwell
pushes `(current_point, next_laser_state)` and decrements `dwell`; otherwise
an active interpolator is advanced and the new `current_point` is pushed
with `next_laser_state`; a finished interpolator pushes nothing. -/
def process_next_step (s : TransState) :
    Bool × Option (PointQ × Bool) × TransState :=
  if 0 < s.dwell then
    (true, some (s.t.current_point, s.next_laser_state),
      { s with dwell := s.dwell - 1 })
  else if interp_active s.ip then
    match interp_next_step s.ip s.t with
    | (true, ip', t') =>
        (true, some (t'.current_point, s.next_laser_state),
          { s with ip := ip', t := t' })
    | (false, ip', t') => (false, none, { s with ip := ip', t := t' })
  else (false, none, s)

/-- The samples a transition pushes into the step ring, in order: repeated
`process_next_step` until it returns `false`, collecting the pushed
samples. -/
def transRun : Nat → TransState → List (PointQ × Bool)
  | 0, _ => []
  | fuel + 1, s =>
      match process_next_step s with
      | (false, _, _) => []
      | (true, none, s') => transRun fuel s'
      | (true, some sam, s') => sam :: transRun fuel s'

/-- The transition-rendering state the renderer sets up for a new transition
(`Renderer::handle_next_point` storing `last_point`/`next_point` and the
laser states, then `Renderer::handle_new_transition` constructing
`transition_t(last_point, next_point)`, computing the dwell and calling
`interp_init`): `none` when `interp_init` fails. -/
def mkTransState (last_point next_point : PointQ)
    (last_laser next_laser : Bool) (step_size acc dec : Nat) :
    Option TransState :=
  let t := mkTransition last_point next_point
  (interp_init t step_size acc dec).map fun ip =>
    ⟨calc_laser_dwell last_laser next_laser, ip, t, next_laser⟩

/-! ## Predicates and fixtures used by the theorems -/

/-- Per-axis bound satisfied by every emitted sample of a monotone
transition: between the start coordinate and the end coordinate plus one
initial step. -/
def boxS (stA enA S0A pA : Int) : Prop := stA ≤ pA ∧ pA ≤ enA + S0A

/-- Per-axis facts established by `interp_init` on a monotone in-range
transition: coordinates in the coord8-lifted range, nonnegative step, and
`total_steps` whole steps fit inside the delta. -/
def AxPre (stA enA S0A : Int) (T : Nat) : Prop :=
  0 ≤ stA ∧ stA ≤ enA ∧ enA ≤ 4080 ∧ 0 ≤ S0A ∧ (T : Int) * S0A ≤ enA - stA

/-- Per-axis facts maintained through the deceleration ramp: the mutating
step is still nonnegative and at most the initial step, and the current
point plus one more step stays below `end + initial step`. -/
def LastAx (stA enA S0A sA curA : Int) : Prop :=
  0 ≤ sA ∧ sA ≤ S0A ∧ stA ≤ curA ∧ curA + sA ≤ enA + S0A

/-- Invariant of the interpolator run on a monotone in-range transition with
initial step `S0` and step count `T`.  Carries for each state of the machine
exactly what the box-bound proof needs. -/
def InvC1 (st en S0 : PointQ) (T : Nat) (ip : Interp) (t : Transition) :
    Prop :=
  t.start_point = st ∧ t.end_point = en ∧ ip.total_steps = T ∧
  1 ≤ T ∧ T ≤ 255 ∧ AxPre st.x en.x S0.x T ∧ AxPre st.y en.y S0.y T ∧
  ((ip.state = IState.first ∧ ip.step = S0 ∧ ip.current_step = 0) ∨
   (ip.state = IState.interpolate ∧ ip.step = S0 ∧
     ip.current_step ≤ T ∧
     st.x ≤ t.current_point.x ∧
     t.current_point.x + ((T - ip.current_step : Nat) : Int) * S0.x ≤ en.x ∧
     st.y ≤ t.current_point.y ∧
     t.current_point.y + ((T - ip.current_step : Nat) : Int) * S0.y ≤ en.y) ∨
   (ip.state = IState.last ∧ (ip.dec_factor = 0 ∨
     (LastAx st.x en.x S0.x ip.step.x t.current_point.x ∧
      LastAx st.y en.y S0.y ip.step.y t.current_point.y))) ∨
   ip.state = IState.finished)

/-- Invariant of the interpolator run on an arbitrary in-range transition,
for the step-count claim: `total_steps` is in `[1, 255]`, `current_step`
never exceeds it, and it reaches it only in the one-step case, after the
first normal step. -/
def Inv5 (ip : Interp) : Prop :=
  1 ≤ ip.total_steps ∧ ip.total_steps ≤ 255 ∧
  ip.current_step ≤ ip.total_steps ∧
  ((ip.state = IState.first ∨ ip.state = IState.ready) →
    ip.current_step = 0) ∧
  (ip.current_step = ip.total_steps → ip.total_steps = 1 ∧
    (ip.state = IState.interpolate ∨ ip.state = IState.last ∨
      ip.state = IState.finished))

/-- A concrete empty step ring, used to instantiate the ring-buffer
theorem. -/
def ring0 : StepRing := ⟨fun _ => ⟨0, 0⟩, 0, 0, 0⟩

/-- A concrete full step ring (head one slot behind tail, modulo 16). -/
def ring15 : StepRing := ⟨fun _ => ⟨0, 0⟩, 0, 15, 0⟩

/-- A concrete waypoint buffer holding the same nonzero waypoint in every
slot, with `point_count = 5`. -/
def pbufA : PointBuf := ⟨fun _ => ⟨7, 8, 64⟩, 5⟩

/-- A concrete waypoint buffer for the `get_next_point` witness: three
points, walked from index 0. -/
def pbufB : PointBuf := ⟨fun i => ⟨i.val, 2 * i.val, if i.val = 1 then 64 else 0⟩, 3⟩

/-- The transition of scenario S3 of the specification:
start `(0,0)`, end `(0x400, 0x00)`. -/
def tS3 : Transition := mkTransition ⟨0, 0⟩ ⟨1024, 0⟩

/-- The interpolator state `interp_init` produces for scenario S3 with
step_size 16, acc 2, dec 0. -/
def ipS3 : Interp :=
  ⟨⟨256, 0⟩, 0, 4, 2, 0, IState.first⟩

/-- The transition-rendering state used to instantiate the dwell theorem:
transition `(0,0) -> (1600,1600)`, laser turning on, step size 4. -/
def c4state : TransState :=
  ⟨10, ⟨⟨64, 64⟩, 0, 25, 0, 0, IState.first⟩,
    mkTransition ⟨0, 0⟩ ⟨1600, 1600⟩, true⟩

/-! ## Shared arithmetic lemmas -/

theorem i16_eq_self {z : Int} (h1 : -32768 ≤ z) (h2 : z ≤ 32767) :
    i16 z = z := by
  unfold i16; omega

theorem sar_eq_ediv (v : Int) (n : Nat) : sar v n = v / 2 ^ n :=
  Int.fdiv_eq_ediv v (by positivity)

theorem sar_nonneg {v : Int} (h : 0 ≤ v) (n : Nat) : 0 ≤ sar v n := by
  rw [sar_eq_ediv]; exact Int.ediv_nonneg h (by positivity)

theorem sar_le_self {v : Int} (h : 0 ≤ v) (n : Nat) : sar v n ≤ v := by
  rw [sar_eq_ediv]; exact Int.ediv_le_self _ h

theorem two_mul_sar_one_le {v : Int} (h : 0 ≤ v) : 2 * sar v 1 ≤ v := by
  rw [sar_eq_ediv]
  have := Int.ediv_mul_le v (b := 2) (by omega)
  omega

/-- Truncating division of an in-range `int16_t` delta whose magnitude is at
least the (positive) divisor, narrowed to `uint8_t`, lands in `[1, 255]`. -/
theorem u8_tdiv_bounds {d sq : Int} (hsq1 : 16 ≤ sq) (hsq2 : sq ≤ 800)
    (hd : d.natAbs ≤ 4080) (hge : sq ≤ (d.natAbs : Int)) :
    1 ≤ u8 (Int.tdiv d sq) ∧ u8 (Int.tdiv d sq) ≤ 255 := by
  rcases le_or_lt 0 d with hpos | hneg
  · have habs : (d.natAbs : Int) = d := Int.natAbs_of_nonneg hpos
    rw [Int.tdiv_eq_ediv hpos (by omega)]
    have hq1 : 1 ≤ d / sq := by
      rw [Int.le_ediv_iff_mul_le (by omega)]
      omega
    have hq2 : d / sq ≤ 255 := by
      have h1 : d / sq * sq ≤ d := Int.ediv_mul_le d (by omega)
      have h2 : (d : Int) ≤ 4080 := by omega
      nlinarith [hq1]
    unfold u8
    omega
  · have habs : (d.natAbs : Int) = -d := by omega
    have hd0 : d = -(-d) := by ring
    rw [hd0, Int.neg_tdiv]
    have hpos' : (0:Int) ≤ -d := by omega
    rw [Int.tdiv_eq_ediv hpos' (by omega)]
    have hq1 : 1 ≤ (-d) / sq := by
      rw [Int.le_ediv_iff_mul_le (by omega)]
      omega
    have hq2 : (-d) / sq ≤ 255 := by
      have h1 : (-d) / sq * sq ≤ -d := Int.ediv_mul_le (-d) (by omega)
      have h2 : -d ≤ 4080 := by omega
      nlinarith [hq1]
    unfold u8
    omega

/-- A `false` return of `interp_next_step` happens exactly in the
`INTERP_STATE_FINISHED` state. -/
theorem interp_next_step_false_iff (ip : Interp) (t : Transition) :
    (interp_next_step ip t).1 = false ↔ ip.state = IState.finished := by
  cases h : ip.state <;>
    simp [interp_next_step, h, firstStep, lastStep] <;>
    split <;> simp_all <;> split <;> simp_all

/-! ## C9 — clear() zeroes only the first 63 bytes of the waypoint array -/

/-- C9: `coord8_point_buf_t::clear()` sets `point_count` to 0, but its
`memset` covers only `MAX_POINTS` = 63 bytes of the 3 * 63 = 189-byte
`points` array; hence every waypoint at index at least 22 (in fact at least
21) survives the call unchanged, as read back through `get_point`. -/
theorem C9_clear_partial_memset (b : PointBuf) (i : Nat) (h22 : 22 ≤ i) :
    b.clear.point_count = 0 ∧ b.clear.get_point i = b.get_point i := by
  refine ⟨rfl, ?_⟩
  unfold PointBuf.get_point PointBuf.clear
  split
  · simp only [Option.some.injEq]
    have : ¬ (i < 21) := by omega
    simp [this]
  · rfl

/-- Witness for C9 at the concrete buffer `pbufA` and index 30. -/
theorem C9_clear_partial_memset_witness :
    22 ≤ 30 ∧ (pbufA.clear.point_count = 0 ∧
      pbufA.clear.get_point 30 = pbufA.get_point 30) :=
  ⟨by omega, C9_clear_partial_memset pbufA 30 (by omega)⟩

/-! ## C10 — set_laser_state / get_laser_state round-trip -/

/-- C10: for `index < MAX_POINTS`, `set_laser_state(index, s)` stores
`BLANKING_BIT` (0x40) when `s` is true and 0 otherwise, `get_laser_state`
reads back exactly `s`, and the `IS_LASER_ON` macro applied to the stored
flags byte is the negation of `s`. -/
theorem C10_laser_state_roundtrip (b : PointBuf) (i : Nat) (s : Bool)
    (h : i < 63) :
    (b.set_laser_state i s).get_laser_state i = s ∧
    ((b.set_laser_state i s).points ⟨i, h⟩).flags =
      (if s then BLANKING_BIT else 0) ∧
    IS_LASER_ON ((b.set_laser_state i s).points ⟨i, h⟩).flags = !s := by
  unfold PointBuf.set_laser_state PointBuf.get_laser_state
  simp only [dif_pos h, Function.update_same]
  cases s <;> simp [IS_LASER_ON, BLANKING_BIT]

/-- Witness for C10 at the concrete buffer `pbufA`, index 3, laser on. -/
theorem C10_laser_state_roundtrip_witness :
    (3 < 63) ∧
    ((pbufA.set_laser_state 3 true).get_laser_state 3 = true ∧
     ((pbufA.set_laser_state 3 true).points ⟨3, by omega⟩).flags =
       (if true then BLANKING_BIT else 0) ∧
     IS_LASER_ON ((pbufA.set_laser_state 3 true).points ⟨3, by omega⟩).flags =
       !true) :=
  ⟨by omega, C10_laser_state_roundtrip pbufA 3 true (by omega)⟩

/-- Bit test through the C idiom `(word & (1 << i)) != 0`. -/
theorem and_shift_ne_zero_iff (a t : Nat) :
    (a &&& (1 <<< t) ≠ 0) ↔ a.testBit t := by
  rw [Nat.one_shiftLeft, Nat.and_two_pow]
  rcases h : a.testBit t <;> simp [h]

/-! ## C3 — frame-boundary buffer swap ignores swap_requested (code bug)

The claim says the renderer exchanges the buffers at a frame boundary only
when `swap_requested` is set, re-renders the frame otherwise, and clears the
flag after a swap.  `Renderer::handle_buffer_finished` instead swaps behind
the constant guard `if (1)` — its own comment reads
`TODO: make this a parameter (swap_requested)` — and never reads or clears
`swap_requested`. -/

/-- C3: at a frame boundary with `swap_requested` false the buffers are
swapped anyway, and with `swap_requested` true the flag survives the swap
uncleared; the index reset and state change are as described. -/
theorem C3_swap_ignores_request :
    (handle_buffer_finished ⟨true, 4, false, RState.buffer_finished⟩).activeIsA
      = false ∧
    (handle_buffer_finished ⟨true, 4, false,
      RState.buffer_finished⟩).swap_requested = false ∧
    (handle_buffer_finished ⟨true, 4, true, RState.buffer_finished⟩).activeIsA
      = false ∧
    (handle_buffer_finished ⟨true, 4, true,
      RState.buffer_finished⟩).swap_requested = true ∧
    (handle_buffer_finished ⟨true, 4, false,
      RState.buffer_finished⟩).point_buf_index = 0 ∧
    (handle_buffer_finished ⟨true, 4, false,
      RState.buffer_finished⟩).renderer_state = RState.next_point := by
  decide

/-! ## C7 — scenario S3 acceleration-ramp sample sequence

The claim (spec scenario S3) expects the ramp samples to accumulate:
`(0x40,0), (0xC0,0), (0x1C0,0), (0x2C0,0), (0x3C0,0), (0x400,0)`.  The code
computes each ramp sample absolutely as `start + (step >> acc_factor)` and
then takes the first normal step from `start`, so the actual sequence is
`(0x40,0), (0x80,0), (0x100,0), (0x200,0), (0x300,0), (0x400,0)`. -/

/-- C7 counterexample: for start `(0,0)`, end `(0x400,0)`, step_size 16,
acc 2, dec 0, the emitted sequence differs from the claimed one (already at
the second sample: `0x80` is emitted, not `0xC0`). -/
theorem C7_ramp_counterexample :
    interp_init tS3 16 2 0 = some ipS3 ∧
    interpRun 600 ipS3 tS3 =
      [⟨64, 0⟩, ⟨128, 0⟩, ⟨256, 0⟩, ⟨512, 0⟩, ⟨768, 0⟩, ⟨1024, 0⟩] ∧
    ([⟨64, 0⟩, ⟨128, 0⟩, ⟨256, 0⟩, ⟨512, 0⟩, ⟨768, 0⟩, ⟨1024, 0⟩] :
        List PointQ) ≠
      [⟨64, 0⟩, ⟨192, 0⟩, ⟨448, 0⟩, ⟨704, 0⟩, ⟨960, 0⟩, ⟨1024, 0⟩] := by
  refine ⟨by decide, by decide, by decide⟩

/-- C7 amended: the run emits exactly six samples
`(0x40,0), (0x80,0), (0x100,0), (0x200,0), (0x300,0), (0x400,0)`, ending
exactly at the end point. -/
theorem C7_ramp_actual_sequence :
    interp_init tS3 16 2 0 = some ipS3 ∧
    interpRun 600 ipS3 tS3 =
      [⟨64, 0⟩, ⟨128, 0⟩, ⟨256, 0⟩, ⟨512, 0⟩, ⟨768, 0⟩, ⟨1024, 0⟩] ∧
    (interpRun 600 ipS3 tS3).getLast? = some ⟨1024, 0⟩ := by
  refine ⟨by decide, by decide, by decide⟩

/-! ## C6 — step ring buffer push/pop contract -/

/-- C6: `push` succeeds exactly when `((head+1) & 0x0F) != tail`; on success
it stores the point at slot `head`, writes the laser bit at position `head`
of the packed flag word (leaving every other bit unchanged) and advances
`head` modulo 16; `pop` succeeds exactly when `head != tail`; on success it
yields the point at slot `tail` together with bit `tail` of the flag word
and advances `tail` modulo 16; a rejected `push` or `pop` returns false and
leaves `head`, `tail`, the point slots and the flag word unchanged. -/
theorem C6_step_ring_contract (r : StepRing) (p : PointQ) (f : Bool) :
    ((r.push p f).1 = true ↔ r.head + 1 ≠ r.tail) ∧
    ((r.push p f).1 = true →
      (r.push p f).2.point_buf = Function.update r.point_buf r.head p ∧
      (r.push p f).2.head = r.head + 1 ∧
      (r.push p f).2.tail = r.tail ∧
      (r.push p f).2.flag_buf.testBit r.head.val = f ∧
      (∀ j : Fin 16, j ≠ r.head →
        (r.push p f).2.flag_buf.testBit j.val = r.flag_buf.testBit j.val)) ∧
    ((r.push p f).1 = false → (r.push p f).2 = r) ∧
    (r.pop.1 = true ↔ r.head ≠ r.tail) ∧
    (r.pop.1 = true →
      r.pop.2.1 = some (r.point_buf r.tail, r.flag_buf.testBit r.tail.val) ∧
      r.pop.2.2.tail = r.tail + 1 ∧
      r.pop.2.2.head = r.head ∧
      r.pop.2.2.point_buf = r.point_buf ∧
      r.pop.2.2.flag_buf = r.flag_buf) ∧
    (r.pop.1 = false → r.pop.2.2 = r ∧ r.pop.2.1 = none) := by
  have hfull : (r.is_full = true) ↔ r.head + 1 = r.tail := by
    unfold StepRing.is_full; simp
  have hempty : (r.is_empty = true) ↔ r.head = r.tail := by
    unfold StepRing.is_empty; simp
  constructor
  · by_cases hc : r.head + 1 = r.tail
    · unfold StepRing.push
      rw [if_pos (hfull.mpr hc)]
      simpa using hc
    · unfold StepRing.push
      rw [if_neg (fun hh => hc (hfull.mp hh))]
      simpa using hc
  constructor
  · intro hs
    by_cases hc : r.head + 1 = r.tail
    · exfalso
      unfold StepRing.push at hs
      rw [if_pos (hfull.mpr hc)] at hs
      exact Bool.false_ne_true hs
    · unfold StepRing.push
      rw [if_neg (fun hh => hc (hfull.mp hh))]
      refine ⟨rfl, rfl, rfl, ?_, ?_⟩
      · simp only [Nat.testBit_or, Nat.testBit_and, Nat.testBit_xor,
          Nat.one_shiftLeft]
        have h65535 : (65535 : Nat).testBit r.head.val = true := by
          have he : (65535 : Nat) = 2 ^ 16 - 1 := by norm_num
          rw [he, Nat.testBit_two_pow_sub_one]
          simpa using r.head.isLt
        have hpow : (2 ^ r.head.val).testBit r.head.val = true :=
          Nat.testBit_two_pow_self
        cases f
        · simp [Nat.zero_shiftLeft, h65535, hpow]
        · simp [Nat.one_shiftLeft, h65535, hpow]
      · intro j hj
        have hv : j.val ≠ r.head.val := fun hc2 => hj (Fin.ext hc2)
        simp only [Nat.testBit_or, Nat.testBit_and, Nat.testBit_xor,
          Nat.one_shiftLeft]
        have h65535 : (65535 : Nat).testBit j.val = true := by
          have he : (65535 : Nat) = 2 ^ 16 - 1 := by norm_num
          rw [he, Nat.testBit_two_pow_sub_one]
          simpa using j.isLt
        have hpow : (2 ^ r.head.val).testBit j.val = false := by
          rw [Nat.testBit_two_pow]
          simpa using fun hc2 => hv hc2.symm
        have hzero : (0 : Nat).testBit j.val = false := Nat.zero_testBit j.val
        cases f
        · simp [Nat.zero_shiftLeft, h65535, hpow, hzero]
        · simp [Nat.one_shiftLeft, h65535, hpow]
  constructor
  · intro hfail
    by_cases hc : r.head + 1 = r.tail
    · unfold StepRing.push
      rw [if_pos (hfull.mpr hc)]
    · exfalso
      unfold StepRing.push at hfail
      rw [if_neg (fun hh => hc (hfull.mp hh))] at hfail
      simp at hfail
  constructor
  · by_cases hc : r.head = r.tail
    · unfold StepRing.pop
      rw [if_pos (hempty.mpr hc)]
      simpa using hc
    · unfold StepRing.pop
      rw [if_neg (fun hh => hc (hempty.mp hh))]
      simpa using hc
  constructor
  · intro hs
    by_cases hc : r.head = r.tail
    · exfalso
      unfold StepRing.pop at hs
      rw [if_pos (hempty.mpr hc)] at hs
      exact Bool.false_ne_true hs
    · unfold StepRing.pop
      rw [if_neg (fun hh => hc (hempty.mp hh))]
      refine ⟨?_, rfl, rfl, rfl, rfl⟩
      simp only [Option.some.injEq, Prod.mk.injEq, true_and]
      rcases h : r.flag_buf.testBit r.tail.val
      · simpa using (and_shift_ne_zero_iff r.flag_buf r.tail.val).not.mpr
          (by simp [h])
      · simpa using (and_shift_ne_zero_iff r.flag_buf r.tail.val).mpr
          (by simp [h])
  · intro hfail
    by_cases hc : r.head = r.tail
    · unfold StepRing.pop
      rw [if_pos (hempty.mpr hc)]
      exact ⟨rfl, rfl⟩
    · exfalso
      unfold StepRing.pop at hfail
      rw [if_neg (fun hh => hc (hempty.mp hh))] at hfail
      simp at hfail

/-- Witness for C6: on the concrete empty ring `ring0` a push succeeds,
stores the laser bit and advances `head`; a pop on the same empty ring is
rejected and leaves the ring unchanged. -/
theorem C6_step_ring_contract_witness :
    (ring0.push ⟨5, 6⟩ true).1 = true ∧
    (ring0.push ⟨5, 6⟩ true).2.head = ring0.head + 1 ∧
    (ring0.push ⟨5, 6⟩ true).2.flag_buf.testBit 0 = true ∧
    ring0.pop.1 = false ∧
    ring0.pop.2.2 = ring0 := by
  have h := C6_step_ring_contract ring0 ⟨5, 6⟩ true
  have hs : (ring0.push ⟨5, 6⟩ true).1 = true := h.1.mpr (by decide)
  have h2 := h.2.1 hs
  have hp : ring0.pop.1 = false := rfl
  exact ⟨hs, h2.2.1, h2.2.2.2.1, hp, (h.2.2.2.2.2 hp).1⟩

/-! ## C8 — get_next_point walks indices 0..n-1, returning true n-1 times

For an active buffer with `point_count = n ≥ 1`, each call with
`point_buf_index = i < n` copies waypoint `i` into the out-parameters and
advances the index; it returns `true` exactly when `i < n - 1`.  Hence,
starting from index 0, successive calls return `true` exactly `n - 1`
times, and the call that reads waypoint `n - 1` copies it but returns
`false` (so the final waypoint never becomes the end point of a new
transition within the same frame). -/

/-- C8: single-call characterisation of `Renderer::get_next_point` on an
in-range walk index. -/
theorem C8_get_next_point_last_false (b : PointBuf) (idx n : Nat)
    (hc : b.point_count = n) (h1 : 1 ≤ n) (h63 : n ≤ 63) (hidx : idx < n) :
    ((get_next_point b idx).1 = true ↔ idx < n - 1) ∧
    (get_next_point b idx).2.1 = some (liftC8 (b.points ⟨idx, by omega⟩),
      decide ((b.points ⟨idx, by omega⟩).flags &&& BLANKING_BIT ≠ 0)) ∧
    (get_next_point b idx).2.2.1 = idx + 1 := by
  have hlt : idx < 63 := by omega
  have hne0 : b.point_count ≠ 0 := by omega
  have hneidx : idx ≠ b.point_count := by omega
  have hmod : (idx + 1) % 256 = idx + 1 := Nat.mod_eq_of_lt (by omega)
  unfold get_next_point PointBuf.get_point
  rw [if_neg hne0, if_neg hneidx, dif_pos hlt]
  simp only [hmod, hc]
  refine ⟨?_, ?_, ?_⟩
  · split
    · rename_i hend
      simp only [Bool.false_eq_true, false_iff]
      omega
    · rename_i hend
      simp only [true_iff]
      omega
  · split <;> simp
  · split <;> simp

/-- Witness for C8 on the concrete three-point buffer `pbufB`: the call at
index 1 returns true; the call at index 2 (the last waypoint) copies
waypoint 2 into the out-parameters yet returns false. -/
theorem C8_get_next_point_last_false_witness :
    ((get_next_point pbufB 1).1 = true) ∧
    (get_next_point pbufB 2).2.1 = some (liftC8 (pbufB.points ⟨2, by omega⟩),
      decide ((pbufB.points ⟨2, by omega⟩).flags &&& BLANKING_BIT ≠ 0)) ∧
    ((get_next_point pbufB 2).1 = false) := by
  have h1 := C8_get_next_point_last_false pbufB 1 3 rfl (by omega) (by omega)
    (by omega)
  have h2 := C8_get_next_point_last_false pbufB 2 3 rfl (by omega) (by omega)
    (by omega)
  refine ⟨h1.1.mpr (by omega), h2.2.1, ?_⟩
  have h21 := h2.1
  rcases hb : (get_next_point pbufB 2).1
  · exact hb
  · rw [hb] at h21
    simp at h21

/-! ## C4 — dwell samples precede interpolation samples -/

/-- While the dwell counter is positive, `process_next_step` pushes
`(current_point, next_laser_state)` and only decrements `dwell`; hence the
first `d` pushed samples of a transition state with dwell `d` are that
constant sample, followed by whatever the zero-dwell state pushes. -/
theorem transRun_dwell_prefix (d f : Nat) (ip : Interp) (t : Transition)
    (nl : Bool) :
    transRun (d + f) ⟨d, ip, t, nl⟩ =
      List.replicate d (t.current_point, nl) ++ transRun f ⟨0, ip, t, nl⟩ := by
  induction d with
  | zero => simp
  | succ k ih =>
      have hstep : Nat.succ k + f = (k + f) + 1 := by omega
      rw [hstep]
      simp only [transRun, process_next_step]
      rw [if_pos (by simp : 0 < (⟨k + 1, ip, t, nl⟩ : TransState).dwell)]
      simp only [List.replicate_succ, List.cons_append]
      exact congrArg _ ih

/-- With dwell 0, the pushed samples are exactly the interpolator's emitted
points, each paired with `next_laser_state`. -/
theorem transRun_zero_dwell (f : Nat) (ip : Interp) (t : Transition)
    (nl : Bool) :
    transRun f ⟨0, ip, t, nl⟩ = (interpRun f ip t).map (fun p => (p, nl)) := by
  induction f generalizing ip t with
  | zero => simp [transRun, interpRun]
  | succ k ih =>
      rcases hr : interp_next_step ip t with ⟨b, ip2, t2⟩
      cases b
      · have hfin : ip.state = IState.finished := by
          have hiff := interp_next_step_false_iff ip t
          rw [hr] at hiff
          exact hiff.mp rfl
        simp [transRun, interpRun, process_next_step, interp_active, hfin, hr]
      · have hfin : ip.state ≠ IState.finished := by
          have hiff := interp_next_step_false_iff ip t
          rw [hr] at hiff
          intro hc
          exact absurd (hiff.mpr hc) (by simp)
        simp only [transRun, interpRun, process_next_step, interp_active, hr]
        rw [if_neg (by simp : ¬ 0 < (⟨0, ip, t, nl⟩ : TransState).dwell)]
        simp only [hfin, ne_eq, not_false_eq_true, decide_True, if_true]
        simp only [List.map_cons]
        exact congrArg _ (ih ip2 t2)

/-- C4: for a transition built by the renderer from `(last_point,
last_laser)` to `(next_point, next_laser)`, the full sequence of samples
pushed into the step ring is `calc_laser_dwell last next` copies of the
start point carrying the target laser state, followed by the interpolation
samples of that transition — every dwell sample precedes every interpolation
sample; the dwell count is the configured 10 when the laser state changes
and 0 when it does not. -/
theorem C4_dwell_samples_first (lp np : PointQ) (ll nl : Bool)
    (ss acc dec : Nat) (s : TransState)
    (hs : mkTransState lp np ll nl ss acc dec = some s) :
    transRun 600 s =
      List.replicate (calc_laser_dwell ll nl) (lp, nl) ++
        (interpRun (600 - calc_laser_dwell ll nl) s.ip
            (mkTransition lp np)).map (fun p => (p, nl)) ∧
    calc_laser_dwell ll nl = (if ll = nl then 0 else 10) ∧
    (0 < calc_laser_dwell ll nl ↔ ll ≠ nl) := by
  have hcalc : calc_laser_dwell ll nl = (if ll = nl then 0 else 10) := by
    cases ll <;> cases nl <;>
      simp [calc_laser_dwell, LASER_ON_DWELL_TIME, LASER_OFF_DWELL_TIME]
  refine ⟨?_, hcalc, by rw [hcalc]; cases ll <;> cases nl <;> simp⟩
  simp only [mkTransState] at hs
  rcases hinit : interp_init (mkTransition lp np) ss acc dec with _ | ip
  · rw [hinit] at hs
    simp at hs
  · rw [hinit] at hs
    simp only [Option.map_some', Option.some.injEq] at hs
    have hd : calc_laser_dwell ll nl ≤ 600 := by
      rw [hcalc]; split <;> omega
    have hsplit : 600 = calc_laser_dwell ll nl + (600 - calc_laser_dwell ll nl) := by
      omega
    rw [← hs]
    simp only
    rw [hsplit, transRun_dwell_prefix, transRun_zero_dwell]
    have hfuel : calc_laser_dwell ll nl + (600 - calc_laser_dwell ll nl) -
        calc_laser_dwell ll nl = 600 - calc_laser_dwell ll nl := by omega
    rw [hfuel]
    rfl

/-- Witness for C4 at a concrete laser-off-to-on transition
`(0,0) -> (100,100)` lifted to Q12.4, step size 4: ten dwell samples at the
start point with the laser-on flag, then the interpolation samples. -/
theorem C4_dwell_samples_first_witness :
    mkTransState ⟨0, 0⟩ ⟨1600, 1600⟩ false true 4 0 0 = some c4state ∧
    (transRun 600 c4state =
      List.replicate (calc_laser_dwell false true) ((⟨0, 0⟩ : PointQ), true) ++
        (interpRun (600 - calc_laser_dwell false true) c4state.ip
            (mkTransition ⟨0, 0⟩ ⟨1600, 1600⟩)).map (fun p => (p, true)) ∧
     calc_laser_dwell false true = (if false = true then 0 else 10) ∧
     (0 < calc_laser_dwell false true ↔ false ≠ true)) :=
  ⟨by decide,
    C4_dwell_samples_first ⟨0, 0⟩ ⟨1600, 1600⟩ false true 4 0 0 c4state
      (by decide)⟩

/-! ## C5 — current_step versus total_steps

The claim: `current_step ≤ total_steps` always, and whenever they are equal
the state is `Finished`.  The second half fails: when `total_steps = 1` the
first normal step already makes `current_step = total_steps` while the state
is still `Interpolate`; and for deltas beyond the coord8-lifted range even
the inequality fails, because `total_steps` is the `uint8_t` narrowing of a
16-bit quotient (e.g. delta `0x1000` with step `0x10` gives quotient 256,
narrowed to 0). -/

/-- C5 counterexample: after `interp_init` for `(0,0) -> (0x180,0)` with
step_size 16 (so `total_steps = 1`) and one call to `interp_next_step`,
`current_step = total_steps = 1` but the state is `Interpolate`, not
`Finished`; and for `(0,0) -> (0x1000,0)` with step_size 1 the first call
makes `current_step = 1 > 0 = total_steps`. -/
theorem C5_counterexample :
    (interp_init (mkTransition ⟨0, 0⟩ ⟨384, 0⟩) 16 0 0).map
        (fun ip =>
          let r := interpIter 1 (ip, mkTransition ⟨0, 0⟩ ⟨384, 0⟩)
          (r.1.current_step, r.1.total_steps, r.1.state)) =
      some (1, 1, IState.interpolate) ∧
    IState.interpolate ≠ IState.finished ∧
    (interp_init (mkTransition ⟨0, 0⟩ ⟨4096, 0⟩) 1 0 0).map
        (fun ip =>
          let r := interpIter 1 (ip, mkTransition ⟨0, 0⟩ ⟨4096, 0⟩)
          (r.1.current_step, r.1.total_steps)) =
      some (1, 0) ∧
    ¬ ((1 : Nat) ≤ 0) := by
  refine ⟨by decide, by decide, by decide, by omega⟩

/-- The `ABS` macro agrees with the mathematical absolute value on in-range
operands. -/
theorem abs16_eq_natAbs {v : Int} (h : v.natAbs ≤ 32767) :
    abs16 v = (v.natAbs : Int) := by
  unfold abs16 i16
  split <;> omega

/-- The clamped parameter lands between its bounds. -/
theorem clampParam_bounds (lo hi v : Nat) (h : lo ≤ hi) :
    lo ≤ clampParam lo hi v ∧ clampParam lo hi v ≤ hi := by
  unfold clampParam
  split_ifs <;> omega

/-- For an in-range transition (both endpoints coord8-lifted, i.e. each
coordinate in `[0, 4080]`), `interp_init` always yields `total_steps` in
`[1, 255]`, `current_step = 0`, and either the `First` state or (for a
transition shorter than one step) the `Last` state with both ramp factors
cleared. -/
theorem interp_init_total_bounds {st en : PointQ} {ss acc dec : Nat}
    {ip0 : Interp}
    (hsx1 : 0 ≤ st.x) (hsx2 : st.x ≤ 4080) (hsy1 : 0 ≤ st.y)
    (hsy2 : st.y ≤ 4080) (hex1 : 0 ≤ en.x) (hex2 : en.x ≤ 4080)
    (hey1 : 0 ≤ en.y) (hey2 : en.y ≤ 4080)
    (hinit : interp_init (mkTransition st en) ss acc dec = some ip0) :
    1 ≤ ip0.total_steps ∧ ip0.total_steps ≤ 255 ∧ ip0.current_step = 0 ∧
      (ip0.state = IState.first ∨ (ip0.state = IState.last ∧
        ip0.dec_factor = 0 ∧ ip0.acc_factor = 0)) := by
  have hssb := clampParam_bounds 1 MAX_STEP_SIZE (ss % 256)
    (by unfold MAX_STEP_SIZE; omega)
  set ss2 := clampParam 1 MAX_STEP_SIZE (ss % 256) with hssdef
  have hss1 : 1 ≤ ss2 := hssb.1
  have hss2 : ss2 ≤ 50 := hssb.2
  have hdx : i16 (en.x - st.x) = en.x - st.x :=
    i16_eq_self (by omega) (by omega)
  have hdy : i16 (en.y - st.y) = en.y - st.y :=
    i16_eq_self (by omega) (by omega)
  have habsx : abs16 (en.x - st.x) = ((en.x - st.x).natAbs : Int) :=
    abs16_eq_natAbs (by omega)
  have habsy : abs16 (en.y - st.y) = ((en.y - st.y).natAbs : Int) :=
    abs16_eq_natAbs (by omega)
  have hsq1 : (16 : Int) ≤ 16 * (ss2 : Int) := by omega
  have hsq2 : (16 : Int) * (ss2 : Int) ≤ 800 := by omega
  have hnax : (en.x - st.x).natAbs ≤ 4080 := by omega
  have hnay : (en.y - st.y).natAbs ≤ 4080 := by omega
  simp only [interp_init, mkTransition, ← hssdef, hdx, hdy, habsx, habsy]
    at hinit
  split_ifs at hinit with hclose hdiag hz1 hxdom hz2 hts1 hz3 hts2
  · rw [Option.some.injEq] at hinit
    subst hinit
    exact ⟨Nat.le_refl 1, (by omega : (1 : Nat) ≤ 255), rfl,
      Or.inr ⟨rfl, rfl, rfl⟩⟩
  · rw [Option.some.injEq] at hinit
    subst hinit
    have hmax : max ((en.x - st.x).natAbs : Int) ((en.y - st.y).natAbs : Int)
        = ((en.x - st.x).natAbs : Int) := by
      rw [hdiag]; exact max_self _
    rw [not_lt, hmax] at hclose
    have hb := u8_tdiv_bounds hsq1 hsq2 hnax hclose
    exact ⟨hb.1, hb.2, rfl, Or.inl rfl⟩
  · rw [Option.some.injEq] at hinit
    subst hinit
    have hmax : max ((en.x - st.x).natAbs : Int) ((en.y - st.y).natAbs : Int)
        = ((en.x - st.x).natAbs : Int) := max_eq_left (le_of_lt hxdom)
    rw [not_lt, hmax] at hclose
    have hb := u8_tdiv_bounds hsq1 hsq2 hnax hclose
    exact ⟨hb.1, hb.2, rfl, Or.inl rfl⟩
  · exfalso
    have hmax : max ((en.x - st.x).natAbs : Int) ((en.y - st.y).natAbs : Int)
        = ((en.x - st.x).natAbs : Int) := max_eq_left (le_of_lt hxdom)
    rw [not_lt, hmax] at hclose
    have hb := u8_tdiv_bounds hsq1 hsq2 hnax hclose
    omega
  · rw [Option.some.injEq] at hinit
    subst hinit
    have hmax : max ((en.x - st.x).natAbs : Int) ((en.y - st.y).natAbs : Int)
        = ((en.y - st.y).natAbs : Int) := max_eq_right (by omega)
    rw [not_lt, hmax] at hclose
    have hb := u8_tdiv_bounds hsq1 hsq2 hnay hclose
    exact ⟨hb.1, hb.2, rfl, Or.inl rfl⟩
  · exfalso
    have hmax : max ((en.x - st.x).natAbs : Int) ((en.y - st.y).natAbs : Int)
        = ((en.y - st.y).natAbs : Int) := max_eq_right (by omega)
    rw [not_lt, hmax] at hclose
    have hb := u8_tdiv_bounds hsq1 hsq2 hnay hclose
    omega

/-- One call to `interp_next_step` preserves the step-count invariant
`Inv5`. -/
theorem Inv5_step (ip : Interp) (t : Transition) (h : Inv5 ip) :
    Inv5 (interp_next_step ip t).2.1 := by
  obtain ⟨h1, h2, h3, h4, h5⟩ := h
  have hmod : (ip.current_step + 1) % 256 = ip.current_step + 1 :=
    Nat.mod_eq_of_lt (by omega)
  cases hst : ip.state
  case ready =>
    have hcs : ip.current_step = 0 := h4 (Or.inr hst)
    simp only [interp_next_step, hst, firstStep]
    split_ifs
    · exact ⟨h1, h2, by simpa using h3, by simp [hcs],
        fun he => absurd he (by simp only; omega)⟩
    · refine ⟨h1, h2, ?_, by simp, ?_⟩
      · simp only [hmod]
        omega
      · simp only [hmod]
        intro he
        refine ⟨by omega, ?_⟩
        simp
  case first =>
    have hcs : ip.current_step = 0 := h4 (Or.inl hst)
    simp only [interp_next_step, hst, firstStep]
    split_ifs
    · exact ⟨h1, h2, by simpa using h3, by simp [hcs],
        fun he => absurd he (by simp only; omega)⟩
    · refine ⟨h1, h2, ?_, by simp, ?_⟩
      · simp only [hmod]
        omega
      · simp only [hmod]
        intro he
        refine ⟨by omega, ?_⟩
        simp
  case interpolate =>
    simp only [interp_next_step, hst]
    split_ifs with hlt
    · refine ⟨h1, h2, ?_, by simp, ?_⟩
      · simp only [hmod]
        omega
      · simp only [hmod]
        intro he
        omega
    · simp only [lastStep]
      split_ifs
      · refine ⟨h1, h2, h3, by simp, ?_⟩
        intro he
        refine ⟨(h5 he).1, ?_⟩
        simp
      · refine ⟨h1, h2, h3, by simp, ?_⟩
        intro he
        refine ⟨(h5 he).1, ?_⟩
        simp
  case last =>
    simp only [interp_next_step, hst, lastStep]
    split_ifs
    · refine ⟨h1, h2, h3, by simp, ?_⟩
      intro he
      refine ⟨(h5 he).1, ?_⟩
      simp
    · refine ⟨h1, h2, h3, by simp, ?_⟩
      intro he
      refine ⟨(h5 he).1, ?_⟩
      simp
  case finished =>
    simp only [interp_next_step, hst]
    exact ⟨h1, h2, h3, h4, h5⟩

/-- The step-count invariant holds after any number of interpolator
calls. -/
theorem Inv5_iter (n : Nat) (ip : Interp) (t : Transition) (h : Inv5 ip) :
    Inv5 (interpIter n (ip, t)).1 := by
  induction n generalizing ip t with
  | zero => exact h
  | succ k ih =>
      simp only [interpIter]
      exact ih _ _ (Inv5_step ip t h)

/-- C5 amended: for a transition between coord8-lifted in-range points,
after `interp_init` and across every call to `interp_next_step`,
`current_step ≤ total_steps` holds; when they are equal, `total_steps = 1`
and the interpolator has already taken its one normal step — its state is
`Interpolate`, `Last` or `Finished`, but not necessarily `Finished`. -/
theorem C5_current_step_bound (st en : PointQ) (ss acc dec n : Nat)
    (ip0 : Interp)
    (hsx1 : 0 ≤ st.x) (hsx2 : st.x ≤ 4080) (hsy1 : 0 ≤ st.y)
    (hsy2 : st.y ≤ 4080) (hex1 : 0 ≤ en.x) (hex2 : en.x ≤ 4080)
    (hey1 : 0 ≤ en.y) (hey2 : en.y ≤ 4080)
    (hinit : interp_init (mkTransition st en) ss acc dec = some ip0) :
    (interpIter n (ip0, mkTransition st en)).1.current_step ≤
      (interpIter n (ip0, mkTransition st en)).1.total_steps ∧
    ((interpIter n (ip0, mkTransition st en)).1.current_step =
        (interpIter n (ip0, mkTransition st en)).1.total_steps →
      (interpIter n (ip0, mkTransition st en)).1.total_steps = 1 ∧
        ((interpIter n (ip0, mkTransition st en)).1.state =
            IState.interpolate ∨
          (interpIter n (ip0, mkTransition st en)).1.state = IState.last ∨
          (interpIter n (ip0, mkTransition st en)).1.state =
            IState.finished)) := by
  obtain ⟨b1, b2, b3, _⟩ := interp_init_total_bounds hsx1 hsx2 hsy1 hsy2
    hex1 hex2 hey1 hey2 hinit
  have h0 : Inv5 ip0 :=
    ⟨b1, b2, by omega, fun _ => b3, fun he => absurd he (by omega)⟩
  obtain ⟨_, _, i3, _, i5⟩ := Inv5_iter n ip0 (mkTransition st en) h0
  exact ⟨i3, i5⟩

/-- Witness for C5 at the transition `(0,0) -> (0x180,0)`, step size 16,
after one interpolator call. -/
theorem C5_current_step_bound_witness :
    interp_init (mkTransition ⟨0, 0⟩ ⟨384, 0⟩) 16 0 0 =
      some ⟨⟨256, 0⟩, 0, 1, 0, 0, IState.first⟩ ∧
    ((interpIter 1 (⟨⟨256, 0⟩, 0, 1, 0, 0, IState.first⟩,
        mkTransition ⟨0, 0⟩ ⟨384, 0⟩)).1.current_step ≤
      (interpIter 1 (⟨⟨256, 0⟩, 0, 1, 0, 0, IState.first⟩,
        mkTransition ⟨0, 0⟩ ⟨384, 0⟩)).1.total_steps) :=
  ⟨by decide,
    (C5_current_step_bound ⟨0, 0⟩ ⟨384, 0⟩ 16 0 0 1
      ⟨⟨256, 0⟩, 0, 1, 0, 0, IState.first⟩ (by decide) (by decide) (by decide)
      (by decide) (by decide) (by decide) (by decide) (by decide)
      (by decide)).1⟩

/-! ## Shared facts about `interp_init` on monotone in-range transitions -/

/-- The `uint8_t` narrowing of the truncating division is the floor quotient
itself when the numerator is an in-range nonnegative delta, and that many
steps fit under the numerator. -/
theorem u8_tdiv_nonneg_eq {d sq : Int} (hd0 : 0 ≤ d) (hd : d ≤ 4080)
    (hsq1 : 16 ≤ sq) :
    ((u8 (Int.tdiv d sq)) : Int) = d / sq ∧
      ((u8 (Int.tdiv d sq)) : Int) * sq ≤ d := by
  rw [Int.tdiv_eq_ediv hd0 (by omega)]
  have hq0 : (0 : Int) ≤ d / sq := Int.ediv_nonneg hd0 (by omega)
  have hqm : d / sq * sq ≤ d := Int.ediv_mul_le d (by omega)
  have hq255 : d / sq ≤ 255 := by nlinarith
  have h1 : ((u8 (d / sq)) : Int) = d / sq := by
    unfold u8
    omega
  rw [h1]
  exact ⟨rfl, hqm⟩

/-- Step and step-count facts for the dominant-axis branches of
`interp_init` on a monotone in-range transition: `dl` is the dominant
(larger) delta, `dn` the other delta. -/
theorem mono_dom_branch {dl dn sq : Int}
    (hdl0 : 0 ≤ dl) (hdl : dl ≤ 4080) (hdn0 : 0 ≤ dn) (hdn : dn ≤ 4080)
    (hsq : 16 ≤ sq) (hge : sq ≤ dl) :
    1 ≤ u8 (Int.tdiv dl sq) ∧ u8 (Int.tdiv dl sq) ≤ 255 ∧
    ((u8 (Int.tdiv dl sq)) : Int) = dl / sq ∧
    ((u8 (Int.tdiv dl sq)) : Int) * sq ≤ dl ∧
    0 ≤ i16 (Int.tdiv dn (u8 (Int.tdiv dl sq))) ∧
    ((u8 (Int.tdiv dl sq)) : Int) *
      i16 (Int.tdiv dn (u8 (Int.tdiv dl sq))) ≤ dn := by
  obtain ⟨hq, hqm⟩ := u8_tdiv_nonneg_eq hdl0 hdl hsq
  have h1 : 1 ≤ u8 (Int.tdiv dl sq) := by
    have : (1 : Int) ≤ dl / sq := by
      rw [Int.le_ediv_iff_mul_le (by omega)]
      omega
    omega
  have h255 : u8 (Int.tdiv dl sq) ≤ 255 := by
    have hqb : dl / sq ≤ 255 := by
      have := Int.ediv_mul_le dl (show sq ≠ 0 by omega)
      have hq0 : (0 : Int) ≤ dl / sq := Int.ediv_nonneg hdl0 (by omega)
      nlinarith
    omega
  have hTpos : (0 : Int) < (u8 (Int.tdiv dl sq) : Int) := by
    exact_mod_cast h1
  have hdiv0 : (0 : Int) ≤ Int.tdiv dn (u8 (Int.tdiv dl sq)) := by
    rw [Int.tdiv_eq_ediv hdn0 (by omega)]
    exact Int.ediv_nonneg hdn0 (by omega)
  have hdivle : Int.tdiv dn (u8 (Int.tdiv dl sq)) ≤ dn := by
    rw [Int.tdiv_eq_ediv hdn0 (by omega)]
    exact Int.ediv_le_self _ hdn0
  have hid : i16 (Int.tdiv dn (u8 (Int.tdiv dl sq))) =
      Int.tdiv dn (u8 (Int.tdiv dl sq)) :=
    i16_eq_self (by omega) (by omega)
  refine ⟨h1, h255, hq, hqm, by omega, ?_⟩
  rw [hid, Int.tdiv_eq_ediv hdn0 (by omega), mul_comm]
  exact Int.ediv_mul_le _ (by omega)

/-- What `interp_init` computes on a monotone transition between
coord8-lifted in-range points, with unclamped legal parameters: the
characterisation of `step`, `total_steps` and the initial state that the
box-bound and sample-count claims rest on.  The Chebyshev distance is
`max (en.x - st.x) (en.y - st.y)` and the Q12.4 step is `16 * ss`. -/
theorem interp_init_mono {st en : PointQ} {ss acc dec : Nat} {ip0 : Interp}
    (hsx1 : 0 ≤ st.x) (hsy1 : 0 ≤ st.y)
    (hex2 : en.x ≤ 4080) (hey2 : en.y ≤ 4080)
    (hmx : st.x ≤ en.x) (hmy : st.y ≤ en.y)
    (hss1 : 1 ≤ ss) (hss2 : ss ≤ 50) (hacc : acc ≤ 7) (hdec : dec ≤ 7)
    (hinit : interp_init (mkTransition st en) ss acc dec = some ip0) :
    ip0.current_step = 0 ∧ 1 ≤ ip0.total_steps ∧ ip0.total_steps ≤ 255 ∧
    0 ≤ ip0.step.x ∧ 0 ≤ ip0.step.y ∧
    (ip0.total_steps : Int) * ip0.step.x ≤ en.x - st.x ∧
    (ip0.total_steps : Int) * ip0.step.y ≤ en.y - st.y ∧
    ((ip0.state = IState.first ∧ ip0.acc_factor = acc ∧
        ip0.dec_factor = dec ∧
        16 * (ss : Int) ≤ max (en.x - st.x) (en.y - st.y) ∧
        (ip0.total_steps : Int) =
          max (en.x - st.x) (en.y - st.y) / (16 * (ss : Int))) ∨
      (ip0.state = IState.last ∧ ip0.dec_factor = 0 ∧ ip0.acc_factor = 0 ∧
        ip0.total_steps = 1 ∧
        max (en.x - st.x) (en.y - st.y) < 16 * (ss : Int))) := by
  have hclampss : clampParam 1 MAX_STEP_SIZE (ss % 256) = ss := by
    unfold clampParam MAX_STEP_SIZE
    have : ss % 256 = ss := Nat.mod_eq_of_lt (by omega)
    split_ifs <;> omega
  have hclampacc : clampParam 0 7 (acc % 256) = acc := by
    unfold clampParam
    have : acc % 256 = acc := Nat.mod_eq_of_lt (by omega)
    split_ifs <;> omega
  have hclampdec : clampParam 0 7 (dec % 256) = dec := by
    unfold clampParam
    have : dec % 256 = dec := Nat.mod_eq_of_lt (by omega)
    split_ifs <;> omega
  have hdx : i16 (en.x - st.x) = en.x - st.x :=
    i16_eq_self (by omega) (by omega)
  have hdy : i16 (en.y - st.y) = en.y - st.y :=
    i16_eq_self (by omega) (by omega)
  have habsx : abs16 (en.x - st.x) = ((en.x - st.x).natAbs : Int) :=
    abs16_eq_natAbs (by omega)
  have habsy : abs16 (en.y - st.y) = ((en.y - st.y).natAbs : Int) :=
    abs16_eq_natAbs (by omega)
  have hax : ((en.x - st.x).natAbs : Int) = en.x - st.x := by omega
  have hay : ((en.y - st.y).natAbs : Int) = en.y - st.y := by omega
  simp only [interp_init, mkTransition, hclampss, hclampacc, hclampdec,
    hdx, hdy, habsx, habsy, hax, hay] at hinit
  split_ifs at hinit with hclose hdiag hz1 hxdom hz2 hts1 hz3 hts2
  · rw [Option.some.injEq] at hinit
    subst hinit
    refine ⟨rfl, Nat.le_refl 1, (by omega : (1 : Nat) ≤ 255), ?_, ?_, ?_, ?_,
      Or.inr ⟨rfl, rfl, rfl, rfl, hclose⟩⟩
    · simp only [subQ, hdx]
      omega
    · simp only [subQ, hdy]
      omega
    · simp only [subQ, hdx]
      push_cast
      omega
    · simp only [subQ, hdy]
      push_cast
      omega
  · rw [Option.some.injEq] at hinit
    subst hinit
    rw [not_lt] at hclose
    have hD : max (en.x - st.x) (en.y - st.y) = en.x - st.x := by
      rw [hdiag]; exact max_self _
    rw [hD] at hclose
    obtain ⟨hq, hqm⟩ := u8_tdiv_nonneg_eq
      (by omega : (0 : Int) ≤ en.x - st.x) (by omega)
      (by omega : (16 : Int) ≤ 16 * (ss : Int))
    have hb := u8_tdiv_bounds (by omega : (16:Int) ≤ 16 * (ss:Int))
      (by omega) (by omega : (en.x - st.x).natAbs ≤ 4080) (by omega)
    refine ⟨rfl, hb.1, hb.2, (show (0 : Int) ≤ 16 * (ss : Int) by omega),
      (show (0 : Int) ≤ 16 * (ss : Int) by omega), by simpa using hqm,
      by rw [← hdiag]; simpa using hqm, Or.inl ⟨rfl, rfl, rfl, ?_, ?_⟩⟩
    · rw [hD]; exact hclose
    · rw [hD]; simpa using hq
  · rw [Option.some.injEq] at hinit
    subst hinit
    rw [not_lt] at hclose
    have hD : max (en.x - st.x) (en.y - st.y) = en.x - st.x :=
      max_eq_left (by omega)
    rw [hD] at hclose
    obtain ⟨h1, h255, hq, hqm, hsy0, hsym⟩ := mono_dom_branch
      (by omega : (0 : Int) ≤ en.x - st.x) (by omega)
      (by omega : (0 : Int) ≤ en.y - st.y) (by omega)
      (by omega : (16 : Int) ≤ 16 * (ss : Int)) hclose
    refine ⟨rfl, h1, h255, (show (0 : Int) ≤ 16 * (ss : Int) by omega),
      hsy0, by simpa using hqm, hsym,
      Or.inl ⟨rfl, rfl, rfl, by rw [hD]; exact hclose, ?_⟩⟩
    rw [hD]
    simpa using hq
  · exfalso
    rw [not_lt] at hclose
    have hD : max (en.x - st.x) (en.y - st.y) = en.x - st.x :=
      max_eq_left (by omega)
    rw [hD] at hclose
    obtain ⟨h1, _, _, _, _, _⟩ := mono_dom_branch
      (by omega : (0 : Int) ≤ en.x - st.x) (by omega)
      (by omega : (0 : Int) ≤ en.y - st.y) (by omega)
      (by omega : (16 : Int) ≤ 16 * (ss : Int)) hclose
    omega
  · rw [Option.some.injEq] at hinit
    subst hinit
    rw [not_lt] at hclose
    have hD : max (en.x - st.x) (en.y - st.y) = en.y - st.y :=
      max_eq_right (by omega)
    rw [hD] at hclose
    obtain ⟨h1, h255, hq, hqm, hsx0, hsxm⟩ := mono_dom_branch
      (by omega : (0 : Int) ≤ en.y - st.y) (by omega)
      (by omega : (0 : Int) ≤ en.x - st.x) (by omega)
      (by omega : (16 : Int) ≤ 16 * (ss : Int)) hclose
    refine ⟨rfl, h1, h255, hsx0, (show (0 : Int) ≤ 16 * (ss : Int) by omega),
      hsxm, by simpa using hqm,
      Or.inl ⟨rfl, rfl, rfl, by rw [hD]; exact hclose, ?_⟩⟩
    rw [hD]
    simpa using hq
  · exfalso
    rw [not_lt] at hclose
    have hD : max (en.x - st.x) (en.y - st.y) = en.y - st.y :=
      max_eq_right (by omega)
    rw [hD] at hclose
    obtain ⟨h1, _, _, _, _, _⟩ := mono_dom_branch
      (by omega : (0 : Int) ≤ en.y - st.y) (by omega)
      (by omega : (0 : Int) ≤ en.x - st.x) (by omega)
      (by omega : (16 : Int) ≤ 16 * (ss : Int)) hclose
    omega

/-- A finished interpolator emits nothing. -/
theorem interpRun_finished (f : Nat) (ip : Interp) (t : Transition)
    (h : ip.state = IState.finished) : interpRun f ip t = [] := by
  cases f with
  | zero => rfl
  | succ k => simp [interpRun, interp_next_step, h]

/-- A successful call prepends the new current point to the run. -/
theorem interpRun_cons (f : Nat) (ip : Interp) (t : Transition)
    (ip2 : Interp) (t2 : Transition)
    (hr : interp_next_step ip t = (true, ip2, t2)) :
    interpRun (f + 1) ip t = t2.current_point :: interpRun f ip2 t2 := by
  simp [interpRun, hr]

/-- From the `Last` state with no deceleration ramp, exactly one sample is
emitted: the end point. -/
theorem interpRun_last_dec0 (f : Nat) (ip : Interp) (t : Transition)
    (hst : ip.state = IState.last) (hdec : ip.dec_factor = 0) :
    interpRun (f + 1) ip t = [t.end_point] := by
  simp only [interpRun, interp_next_step, hst, lastStep, hdec]
  rw [if_neg (by omega : ¬ 0 < 0)]
  simp only
  rw [interpRun_finished f _ _ rfl]

/-- From the `Interpolate` state with no deceleration ramp and
`m = total_steps - 1 - current_step` (truncated subtraction), the run emits
exactly `m + 1` further samples and ends at the end point. -/
theorem interpRun_interpolate_count (m : Nat) :
    ∀ (f : Nat) (ip : Interp) (t : Transition),
    ip.state = IState.interpolate → ip.dec_factor = 0 →
    1 ≤ ip.current_step → ip.total_steps ≤ 255 →
    m = ip.total_steps - 1 - ip.current_step →
    m + 1 ≤ f →
    (interpRun f ip t).length = m + 1 ∧
      (interpRun f ip t).getLast? = some t.end_point := by
  induction m with
  | zero =>
      intro f ip t hst hdec hcs1 h255 hm hf
      obtain ⟨g, rfl⟩ : ∃ g, f = g + 1 := ⟨f - 1, by omega⟩
      have hcond : ¬ ((ip.current_step : Int) < (ip.total_steps : Int) - 1) :=
        by omega
      simp only [interpRun, interp_next_step, hst]
      rw [if_neg hcond]
      simp only [lastStep, hdec]
      rw [if_neg (by omega : ¬ 0 < 0)]
      simp only
      rw [interpRun_finished g _ _ rfl]
      exact ⟨rfl, rfl⟩
  | succ k ih =>
      intro f ip t hst hdec hcs1 h255 hm hf
      obtain ⟨g, rfl⟩ : ∃ g, f = g + 1 := ⟨f - 1, by omega⟩
      have hcond : (ip.current_step : Int) < (ip.total_steps : Int) - 1 := by
        omega
      have hmod : (ip.current_step + 1) % 256 = ip.current_step + 1 :=
        Nat.mod_eq_of_lt (by omega)
      have hr : interp_next_step ip t =
          (true, { ip with current_step := (ip.current_step + 1) % 256 },
            { t with current_point := addQ t.current_point ip.step }) := by
        simp only [interp_next_step, hst]
        rw [if_pos hcond]
      rw [interpRun_cons g ip t _ _ hr]
      obtain ⟨hlen, hlast⟩ := ih g
        { ip with current_step := (ip.current_step + 1) % 256 }
        { t with current_point := addQ t.current_point ip.step }
        hst hdec (by simp only [hmod]; omega) h255
        (by simp only [hmod]; omega) (by omega)
      constructor
      · rw [List.length_cons, hlen]
      · rcases hl : interpRun g
            { ip with current_step := (ip.current_step + 1) % 256 }
            { t with current_point := addQ t.current_point ip.step } with
          _ | ⟨a, l2⟩
        · rw [hl] at hlen
          simp at hlen
        · rw [hl] at hlast
          rw [List.getLast?_cons_cons]
          exact hlast

/-- C2 amended: for a monotone transition between coord8-lifted points
(each coordinate in `[0, 4080]`, end at least start on both axes) with legal
step size and `acc = dec = 0`, writing `D` for the Chebyshev distance and
`S = 16 * step_size` for the Q12.4 step: the interpolator emits exactly one
sample when `D < S`, exactly two samples when `S ≤ D < 2S`, and exactly
`floor(D / S)` samples when `D ≥ 2S` — not `ceil(D / S)` — and the last
emitted point is exactly the end point. -/
theorem C2_sample_count (st en : PointQ) (ss : Nat) (ip0 : Interp)
    (hsx1 : 0 ≤ st.x) (hsy1 : 0 ≤ st.y) (hex2 : en.x ≤ 4080)
    (hey2 : en.y ≤ 4080) (hmx : st.x ≤ en.x) (hmy : st.y ≤ en.y)
    (hss1 : 1 ≤ ss) (hss2 : ss ≤ 50)
    (hinit : interp_init (mkTransition st en) ss 0 0 = some ip0) :
    (interpRun 600 ip0 (mkTransition st en)).length =
      (if max (en.x - st.x) (en.y - st.y) < 16 * (ss : Int) then 1
       else if max (en.x - st.x) (en.y - st.y) < 2 * (16 * (ss : Int)) then 2
       else (max (en.x - st.x) (en.y - st.y) / (16 * (ss : Int))).toNat) ∧
    (interpRun 600 ip0 (mkTransition st en)).getLast? = some en := by
  obtain ⟨hcs, hT1, hT255, hsx0, hsy0, hmx0, hmy0, hcase⟩ :=
    interp_init_mono hsx1 hsy1 hex2 hey2 hmx hmy hss1 hss2
      (by omega : (0 : Nat) ≤ 7) (by omega : (0 : Nat) ≤ 7) hinit
  rcases hcase with ⟨hfirst, hacc0, hdec0, hge, hTq⟩ |
    ⟨hlast, hdec0, hacc0, hT1e, hlt⟩
  · have hr : interp_next_step ip0 (mkTransition st en) =
        (true, { ip0 with state := IState.interpolate, current_step := (ip0.current_step + 1) % 256 }, { mkTransition st en with current_point := addQ (mkTransition st en).start_point ip0.step }) := by
      simp only [interp_next_step, hfirst, firstStep]
      rw [if_neg (by omega : ¬ 0 < ip0.acc_factor)]
    rw [show (600 : Nat) = 599 + 1 from rfl, interpRun_cons 599 _ _ _ _ hr]
    obtain ⟨hlen, hlast2⟩ := interpRun_interpolate_count
      (ip0.total_steps - 1 - 1) 599
      { ip0 with state := IState.interpolate, current_step := (ip0.current_step + 1) % 256 }
      { mkTransition st en with current_point := addQ (mkTransition st en).start_point ip0.step }
      rfl hdec0 (by simp [hcs]) hT255 (by simp [hcs]) (by omega)
    have hSpos : (0 : Int) < 16 * (ss : Int) := by omega
    constructor
    · rw [List.length_cons, hlen]
      rw [if_neg (by omega : ¬ max (en.x - st.x) (en.y - st.y) <
        16 * (ss : Int))]
      by_cases h2S : max (en.x - st.x) (en.y - st.y) <
          2 * (16 * (ss : Int))
      · rw [if_pos h2S]
        have hq2 : max (en.x - st.x) (en.y - st.y) / (16 * (ss : Int)) < 2 :=
          by
          rw [Int.ediv_lt_iff_lt_mul hSpos]
          omega
        have hq1 : (1 : Int) ≤
            max (en.x - st.x) (en.y - st.y) / (16 * (ss : Int)) := by
          rw [Int.le_ediv_iff_mul_le hSpos]
          omega
        omega
      · rw [if_neg h2S]
        have hq2 : (2 : Int) ≤
            max (en.x - st.x) (en.y - st.y) / (16 * (ss : Int)) := by
          rw [Int.le_ediv_iff_mul_le hSpos]
          omega
        omega
    · rcases hl : interpRun 599
          { ip0 with state := IState.interpolate, current_step := (ip0.current_step + 1) % 256 }
          { mkTransition st en with current_point := addQ (mkTransition st en).start_point ip0.step } with _ | ⟨a, l2⟩
      · rw [hl] at hlen
        simp at hlen
      · rw [hl] at hlast2
        rw [List.getLast?_cons_cons]
        exact hlast2
  · rw [show (600 : Nat) = 599 + 1 from rfl,
      interpRun_last_dec0 599 _ _ hlast hdec0]
    rw [if_pos hlt]
    exact ⟨rfl, rfl⟩

set_option maxRecDepth 4000 in
/-- C2 counterexample: the claimed count `ceil(D / S)` fails on the code.
With `D = S` (here `0x100`, step_size 16) the run emits 2 samples, not
`ceil = 1`; with `D = 0x250` it emits 2 samples, not `ceil = 3`; for the
right-to-left transition `(0x400,0) -> (0,0)` (distinct endpoints, legal
parameters) it emits 252 samples, not `ceil = 4`, because the signed
quotient `-4` is narrowed to the `uint8_t` 252; and beyond the coord8 range,
`(0,0) -> (0x1000,0)` with step_size 1 emits 2 samples, not `ceil = 256`.
The ceiling expressions are spelled `(D + S - 1) / S`. -/
theorem C2_sample_count_counterexample :
    (interp_init (mkTransition ⟨0, 0⟩ ⟨256, 0⟩) 16 0 0).map
        (fun ip => (interpRun 600 ip (mkTransition ⟨0, 0⟩ ⟨256, 0⟩)).length) =
      some 2 ∧ (2 : Nat) ≠ (256 + 256 - 1) / 256 ∧
    (interp_init (mkTransition ⟨0, 0⟩ ⟨592, 0⟩) 16 0 0).map
        (fun ip => (interpRun 600 ip (mkTransition ⟨0, 0⟩ ⟨592, 0⟩)).length) =
      some 2 ∧ (2 : Nat) ≠ (592 + 256 - 1) / 256 ∧
    (interp_init (mkTransition ⟨1024, 0⟩ ⟨0, 0⟩) 16 0 0).map
        (fun ip =>
          (interpRun 600 ip (mkTransition ⟨1024, 0⟩ ⟨0, 0⟩)).length) =
      some 252 ∧ (252 : Nat) ≠ (1024 + 256 - 1) / 256 ∧
    (interp_init (mkTransition ⟨0, 0⟩ ⟨4096, 0⟩) 1 0 0).map
        (fun ip => (interpRun 600 ip (mkTransition ⟨0, 0⟩ ⟨4096, 0⟩)).length) =
      some 2 ∧ (2 : Nat) ≠ (4096 + 16 - 1) / 16 := by
  refine ⟨by decide, by decide, by decide, by decide, ?_, by decide,
    by decide, by decide⟩
  decide

/-- Witness for C2 on the concrete transition `(0,0) -> (0x250,0)` with
step_size 16: the emitted run ends exactly at the end point. -/
theorem C2_sample_count_witness :
    interp_init (mkTransition ⟨0, 0⟩ ⟨592, 0⟩) 16 0 0 =
      some ⟨⟨256, 0⟩, 0, 2, 0, 0, IState.first⟩ ∧
    (interpRun 600 (⟨⟨256, 0⟩, 0, 2, 0, 0, IState.first⟩ : Interp)
        (mkTransition ⟨0, 0⟩ ⟨592, 0⟩)).getLast? = some ⟨592, 0⟩ :=
  ⟨by decide,
    (C2_sample_count ⟨0, 0⟩ ⟨592, 0⟩ 16 ⟨⟨256, 0⟩, 0, 2, 0, 0, IState.first⟩
      (by decide) (by decide) (by decide) (by decide) (by decide) (by decide)
      (by omega) (by omega) (by decide)).2⟩

/-! ## C1 — bounding-box development -/

/-- On one axis, an acceleration-ramp sample `start + (step >> a)` stays in
range and in the box. -/
theorem axStep_acc {stA enA S0A : Int} {T : Nat} (hax : AxPre stA enA S0A T)
    (hT : 1 ≤ T) (a : Nat) :
    i16 (stA + sar S0A a) = stA + sar S0A a ∧
      boxS stA enA S0A (stA + sar S0A a) := by
  obtain ⟨h0, hm, h4080, hS0, hTm⟩ := hax
  have hS0d : S0A ≤ enA - stA := by
    have h1 : (1 : Int) * S0A ≤ (T : Int) * S0A := by
      have : (1 : Int) ≤ (T : Int) := by exact_mod_cast hT
      exact mul_le_mul_of_nonneg_right this hS0
    omega
  have hs1 : 0 ≤ sar S0A a := sar_nonneg hS0 a
  have hs2 : sar S0A a ≤ S0A := sar_le_self hS0 a
  refine ⟨i16_eq_self (by omega) (by omega), by omega, by omega⟩

/-- On one axis, an absolute position `start + k * step` with
`k * step ≤ delta` stays in range and in the box. -/
theorem axStep_pos {stA enA S0A : Int} (h0 : 0 ≤ stA) (hm : stA ≤ enA)
    (h4080 : enA ≤ 4080) (hS0 : 0 ≤ S0A) (k : Nat)
    (hk : (k : Int) * S0A ≤ enA - stA) :
    i16 (stA + (k : Int) * S0A) = stA + (k : Int) * S0A ∧
      boxS stA enA S0A (stA + (k : Int) * S0A) := by
  have hk0 : 0 ≤ (k : Int) * S0A := mul_nonneg (by exact_mod_cast Nat.zero_le k) hS0
  refine ⟨i16_eq_self (by omega) (by omega), by omega, by omega⟩

/-- On one axis, one deceleration sub-step preserves the `LastAx` bound and
emits an in-box sample. -/
theorem axLast {stA enA S0A sA curA : Int} (h0 : 0 ≤ stA) (hmm : stA ≤ enA)
    (h4080 : enA ≤ 4080) (hS04080 : S0A ≤ 4080)
    (hL : LastAx stA enA S0A sA curA) :
    LastAx stA enA S0A (sar sA 1) (i16 (curA + sar sA 1)) ∧
      boxS stA enA S0A (i16 (curA + sar sA 1)) := by
  obtain ⟨hs0, hsS, hstc, hcs⟩ := hL
  have hp0 : 0 ≤ sar sA 1 := sar_nonneg hs0 1
  have hp1 : sar sA 1 ≤ sA := sar_le_self hs0 1
  have hp2 : 2 * sar sA 1 ≤ sA := two_mul_sar_one_le hs0
  have hid : i16 (curA + sar sA 1) = curA + sar sA 1 :=
    i16_eq_self (by omega) (by omega)
  rw [hid]
  exact ⟨⟨hp0, by omega, by omega, by omega⟩, by omega, by omega⟩

/-- Consequences of the per-axis `interp_init` facts. -/
theorem axPre_facts {stA enA S0A : Int} {T : Nat} (hax : AxPre stA enA S0A T)
    (hT : 1 ≤ T) :
    S0A ≤ enA - stA ∧ S0A ≤ 4080 ∧ 0 ≤ S0A ∧ 0 ≤ stA ∧ stA ≤ enA ∧
      enA ≤ 4080 := by
  obtain ⟨h0, hm, h4, hS0, hTm⟩ := hax
  have h1 : (1 : Int) * S0A ≤ (T : Int) * S0A :=
    mul_le_mul_of_nonneg_right (by exact_mod_cast hT) hS0
  rw [one_mul] at h1
  exact ⟨by omega, by omega, hS0, h0, hm, h4⟩

/-- One call to `interp_next_step` preserves the box invariant, and when it
returns `true` the new current point lies in the per-axis box. -/
theorem invC1_step (st en S0 : PointQ) (T : Nat) (ip : Interp)
    (t : Transition) (h : InvC1 st en S0 T ip t) :
    InvC1 st en S0 T (interp_next_step ip t).2.1
        (interp_next_step ip t).2.2 ∧
      ((interp_next_step ip t).1 = true →
        boxS st.x en.x S0.x (interp_next_step ip t).2.2.current_point.x ∧
        boxS st.y en.y S0.y (interp_next_step ip t).2.2.current_point.y) := by
  obtain ⟨hst, hen, hT, hT1, hT255, haxx, haxy, hdisj⟩ := h
  obtain ⟨hxd, hx4080S, hxS0, hx0, hxm, hx4080⟩ := axPre_facts haxx hT1
  obtain ⟨hyd, hy4080S, hyS0, hy0, hym, hy4080⟩ := axPre_facts haxy hT1
  rcases hdisj with ⟨hfS, hstep, hcs⟩ |
    ⟨hiS, hstep, hcsT, hcurx1, hcurx2, hcury1, hcury2⟩ |
    ⟨hlS, hldisj⟩ | hfin
  · simp only [interp_next_step, hfS, firstStep]
    split_ifs with hacc
    · refine ⟨⟨hst, hen, hT, hT1, hT255, haxx, haxy,
        Or.inl ⟨rfl, hstep, hcs⟩⟩, fun _ => ⟨?_, ?_⟩⟩
      · simp only [addQ, sarQ, hst, hstep]
        rw [(axStep_acc haxx hT1 ip.acc_factor).1]
        exact (axStep_acc haxx hT1 ip.acc_factor).2
      · simp only [addQ, sarQ, hst, hstep]
        rw [(axStep_acc haxy hT1 ip.acc_factor).1]
        exact (axStep_acc haxy hT1 ip.acc_factor).2
    · have hmod : (ip.current_step + 1) % 256 = 1 := by
        rw [hcs]
      have hidx : i16 (st.x + S0.x) = st.x + S0.x :=
        i16_eq_self (by omega) (by omega)
      have hidy : i16 (st.y + S0.y) = st.y + S0.y :=
        i16_eq_self (by omega) (by omega)
      have hsamx : (addQ t.start_point ip.step).x = st.x + S0.x := by
        simp only [addQ, hst, hstep]
        exact hidx
      have hsamy : (addQ t.start_point ip.step).y = st.y + S0.y := by
        simp only [addQ, hst, hstep]
        exact hidy
      refine ⟨⟨hst, hen, hT, hT1, hT255, haxx, haxy,
        Or.inr (Or.inl ⟨rfl, hstep, ?_, ?_, ?_, ?_, ?_⟩)⟩,
        fun _ => ⟨?_, ?_⟩⟩
      · simp only [hmod]
        omega
      · rw [hsamx]
        omega
      · rw [hsamx]
        simp only [hmod]
        have hc : ((T - 1 : Nat) : Int) = (T : Int) - 1 := by omega
        rw [hc]
        have he : st.x + S0.x + ((T : Int) - 1) * S0.x =
            st.x + (T : Int) * S0.x := by ring
        rw [he]
        have := haxx.2.2.2.2
        omega
      · rw [hsamy]
        omega
      · rw [hsamy]
        simp only [hmod]
        have hc : ((T - 1 : Nat) : Int) = (T : Int) - 1 := by omega
        rw [hc]
        have he : st.y + S0.y + ((T : Int) - 1) * S0.y =
            st.y + (T : Int) * S0.y := by ring
        rw [he]
        have := haxy.2.2.2.2
        omega
      · rw [hsamx]
        exact ⟨by omega, by omega⟩
      · rw [hsamy]
        exact ⟨by omega, by omega⟩
  · set m := T - ip.current_step with hmdef
    have hmS0x : (0 : Int) ≤ (m : Int) * S0.x :=
      mul_nonneg (by exact_mod_cast Nat.zero_le m) hxS0
    have hmS0y : (0 : Int) ≤ (m : Int) * S0.y :=
      mul_nonneg (by exact_mod_cast Nat.zero_le m) hyS0
    simp only [interp_next_step, hiS]
    split_ifs with hlt
    · have hm2 : 2 ≤ m := by omega
      have hmod : (ip.current_step + 1) % 256 = ip.current_step + 1 :=
        Nat.mod_eq_of_lt (by omega)
      have hSx : S0.x ≤ (m : Int) * S0.x := by
        have : (1 : Int) * S0.x ≤ (m : Int) * S0.x :=
          mul_le_mul_of_nonneg_right (by exact_mod_cast (by omega : 1 ≤ m))
            hxS0
        omega
      have hSy : S0.y ≤ (m : Int) * S0.y := by
        have : (1 : Int) * S0.y ≤ (m : Int) * S0.y :=
          mul_le_mul_of_nonneg_right (by exact_mod_cast (by omega : 1 ≤ m))
            hyS0
        omega
      have hidx : i16 (t.current_point.x + S0.x) =
          t.current_point.x + S0.x := i16_eq_self (by omega) (by omega)
      have hidy : i16 (t.current_point.y + S0.y) =
          t.current_point.y + S0.y := i16_eq_self (by omega) (by omega)
      have hsamx : (addQ t.current_point ip.step).x =
          t.current_point.x + S0.x := by
        simp only [addQ, hstep]
        exact hidx
      have hsamy : (addQ t.current_point ip.step).y =
          t.current_point.y + S0.y := by
        simp only [addQ, hstep]
        exact hidy
      have hcast : ((T - (ip.current_step + 1) : Nat) : Int) =
          (m : Int) - 1 := by omega
      refine ⟨⟨hst, hen, hT, hT1, hT255, haxx, haxy,
        Or.inr (Or.inl ⟨rfl, hstep, ?_, ?_, ?_, ?_, ?_⟩)⟩,
        fun _ => ⟨?_, ?_⟩⟩
      · simp only [hmod]
        omega
      · rw [hsamx]
        omega
      · rw [hsamx]
        simp only [hmod, hcast]
        have he : t.current_point.x + S0.x + ((m : Int) - 1) * S0.x =
            t.current_point.x + (m : Int) * S0.x := by ring
        rw [he]
        omega
      · rw [hsamy]
        omega
      · rw [hsamy]
        simp only [hmod, hcast]
        have he : t.current_point.y + S0.y + ((m : Int) - 1) * S0.y =
            t.current_point.y + (m : Int) * S0.y := by ring
        rw [he]
        omega
      · rw [hsamx]
        exact ⟨by omega, by omega⟩
      · rw [hsamy]
        exact ⟨by omega, by omega⟩
    · simp only [lastStep]
      split_ifs with hdec
      · have hLx : LastAx st.x en.x S0.x S0.x t.current_point.x :=
          ⟨hxS0, le_refl _, hcurx1, by omega⟩
        have hLy : LastAx st.y en.y S0.y S0.y t.current_point.y :=
          ⟨hyS0, le_refl _, hcury1, by omega⟩
        have hax := axLast hx0 hxm hx4080 hx4080S hLx
        have hay := axLast hy0 hym hy4080 hy4080S hLy
        refine ⟨⟨hst, hen, hT, hT1, hT255, haxx, haxy,
          Or.inr (Or.inr (Or.inl ⟨rfl, Or.inr ⟨?_, ?_⟩⟩))⟩,
          fun _ => ⟨?_, ?_⟩⟩
        · simp only [addQ, sarQ, hstep]
          exact hax.1
        · simp only [addQ, sarQ, hstep]
          exact hay.1
        · simp only [addQ, sarQ, hstep]
          exact hax.2
        · simp only [addQ, sarQ, hstep]
          exact hay.2
      · refine ⟨⟨hst, hen, hT, hT1, hT255, haxx, haxy,
          Or.inr (Or.inr (Or.inr rfl))⟩, fun _ => ⟨?_, ?_⟩⟩
        · simp only [hen]
          exact ⟨by omega, by omega⟩
        · simp only [hen]
          exact ⟨by omega, by omega⟩
  · simp only [interp_next_step, hlS, lastStep]
    split_ifs with hdec
    · rcases hldisj with hdec0 | ⟨hLx, hLy⟩
      · omega
      · have hax := axLast hx0 hxm hx4080 hx4080S hLx
        have hay := axLast hy0 hym hy4080 hy4080S hLy
        refine ⟨⟨hst, hen, hT, hT1, hT255, haxx, haxy,
          Or.inr (Or.inr (Or.inl ⟨rfl, Or.inr ⟨?_, ?_⟩⟩))⟩,
          fun _ => ⟨?_, ?_⟩⟩
        · simp only [addQ, sarQ]
          exact hax.1
        · simp only [addQ, sarQ]
          exact hay.1
        · simp only [addQ, sarQ]
          exact hax.2
        · simp only [addQ, sarQ]
          exact hay.2
    · refine ⟨⟨hst, hen, hT, hT1, hT255, haxx, haxy,
        Or.inr (Or.inr (Or.inr rfl))⟩, fun _ => ⟨?_, ?_⟩⟩
      · simp only [hen]
        exact ⟨by omega, by omega⟩
      · simp only [hen]
        exact ⟨by omega, by omega⟩
  · simp only [interp_next_step, hfin]
    exact ⟨⟨hst, hen, hT, hT1, hT255, haxx, haxy, Or.inr (Or.inr (Or.inr hfin))⟩,
      fun hx => by simp at hx⟩

/-- Every sample of a run that starts in the box invariant lies in the
per-axis box. -/
theorem invC1_run (st en S0 : PointQ) (T : Nat) :
    ∀ (fuel : Nat) (ip : Interp) (t : Transition), InvC1 st en S0 T ip t →
    ∀ p ∈ interpRun fuel ip t,
      boxS st.x en.x S0.x p.x ∧ boxS st.y en.y S0.y p.y := by
  intro fuel
  induction fuel with
  | zero =>
      intro ip t _ p hp
      simp [interpRun] at hp
  | succ k ih =>
      intro ip t hinv p hp
      rcases hr : interp_next_step ip t with ⟨b, ip2, t2⟩
      obtain ⟨hpres, hsam⟩ := invC1_step st en S0 T ip t hinv
      rw [hr] at hpres hsam
      cases b
      · simp only [interpRun, hr] at hp
        simp at hp
      · rw [interpRun_cons k ip t ip2 t2 hr] at hp
        rcases List.mem_cons.mp hp with hph | hpt
        · subst hph
          exact hsam rfl
        · exact ih ip2 t2 hpres p hpt

/-- `interp_init` on a monotone in-range transition establishes the box
invariant. -/
theorem interp_init_InvC1 {st en : PointQ} {ss acc dec : Nat} {ip0 : Interp}
    (hsx1 : 0 ≤ st.x) (hsy1 : 0 ≤ st.y) (hex2 : en.x ≤ 4080)
    (hey2 : en.y ≤ 4080) (hmx : st.x ≤ en.x) (hmy : st.y ≤ en.y)
    (hss1 : 1 ≤ ss) (hss2 : ss ≤ 50) (hacc : acc ≤ 7) (hdec : dec ≤ 7)
    (hinit : interp_init (mkTransition st en) ss acc dec = some ip0) :
    InvC1 st en ip0.step ip0.total_steps ip0 (mkTransition st en) := by
  obtain ⟨hcs, hT1, hT255, hsx0, hsy0, hmx0, hmy0, hcase⟩ :=
    interp_init_mono hsx1 hsy1 hex2 hey2 hmx hmy hss1 hss2 hacc hdec hinit
  refine ⟨rfl, rfl, rfl, hT1, hT255,
    ⟨hsx1, hmx, hex2, hsx0, hmx0⟩, ⟨hsy1, hmy, hey2, hsy0, hmy0⟩, ?_⟩
  rcases hcase with ⟨hfirst, _, _, _, _⟩ | ⟨hlast, hdec0, _, _, _⟩
  · exact Or.inl ⟨hfirst, rfl, hcs⟩
  · exact Or.inr (Or.inr (Or.inl ⟨hlast, Or.inl hdec0⟩))

/-- C1 amended: for a monotone transition between coord8-lifted in-range
points (each coordinate in `[0, 4080]` and end at least start on both axes)
and every legal step size, acceleration factor and deceleration factor,
every sample emitted between `interp_init` and `Finished` satisfies
`min(start.x, end.x) - |step.x| ≤ current.x ≤ max(start.x, end.x) +
|step.x|` (and similarly for y), where `step` is the interpolator's initial
step.  Without the monotonicity and range restrictions the code violates the
bound (see the counterexample). -/
theorem C1_bounding_box (st en : PointQ) (ss acc dec : Nat) (ip0 : Interp)
    (p : PointQ)
    (hsx1 : 0 ≤ st.x) (hsy1 : 0 ≤ st.y) (hex2 : en.x ≤ 4080)
    (hey2 : en.y ≤ 4080) (hmx : st.x ≤ en.x) (hmy : st.y ≤ en.y)
    (hss1 : 1 ≤ ss) (hss2 : ss ≤ 50) (hacc : acc ≤ 7) (hdec : dec ≤ 7)
    (hinit : interp_init (mkTransition st en) ss acc dec = some ip0)
    (hp : p ∈ interpRun 600 ip0 (mkTransition st en)) :
    min st.x en.x - |ip0.step.x| ≤ p.x ∧
      p.x ≤ max st.x en.x + |ip0.step.x| ∧
      min st.y en.y - |ip0.step.y| ≤ p.y ∧
      p.y ≤ max st.y en.y + |ip0.step.y| := by
  have hinv := interp_init_InvC1 hsx1 hsy1 hex2 hey2 hmx hmy hss1 hss2
    hacc hdec hinit
  obtain ⟨hbx, hby⟩ := invC1_run st en ip0.step ip0.total_steps 600 ip0
    (mkTransition st en) hinv p hp
  obtain ⟨_, _, _, _, _, haxx, haxy, _⟩ := hinv
  rw [min_eq_left hmx, max_eq_right hmx, min_eq_left hmy, max_eq_right hmy,
    abs_of_nonneg haxx.2.2.2.1, abs_of_nonneg haxy.2.2.2.1]
  obtain ⟨hb1, hb2⟩ := hbx
  obtain ⟨hb3, hb4⟩ := hby
  have hx0 := haxx.2.2.2.1
  have hy0 := haxy.2.2.2.1
  exact ⟨by omega, by omega, by omega, by omega⟩

set_option maxRecDepth 4000 in
/-- C1 counterexample: the claim fails as stated.  For the legal
right-to-left transition `(0x400,0) -> (0,0)` with step_size 16 and
acc = dec = 0, the second emitted sample is `(0x600,0)`, above
`max(start.x, end.x) + |step.x| = 0x500`: the signed quotient `-4` becomes
`total_steps = 252` and the interpolator walks in the wrong direction.  And
for the monotone but extreme transition `(31967,0) -> (32767,0)` with
step_size 50, dec 1, the second sample wraps to `(-32369,0)`, far below
`min(start.x, end.x) - |step.x| = 31167`. -/
theorem C1_bounding_box_counterexample :
    (interp_init (mkTransition ⟨1024, 0⟩ ⟨0, 0⟩) 16 0 0).map
        (fun ip => (ip.step.x,
          ((interpRun 600 ip (mkTransition ⟨1024, 0⟩ ⟨0, 0⟩)).drop
              1).head?)) =
      some (256, some ⟨1536, 0⟩) ∧
    ¬ ((1536 : Int) ≤ max 1024 0 + |(256 : Int)|) ∧
    (interp_init (mkTransition ⟨31967, 0⟩ ⟨32767, 0⟩) 50 0 1).map
        (fun ip => (ip.step.x,
          ((interpRun 600 ip (mkTransition ⟨31967, 0⟩ ⟨32767, 0⟩)).drop
              1).head?)) =
      some (800, some ⟨-32369, 0⟩) ∧
    ¬ (min 31967 32767 - |(800 : Int)| ≤ (-32369 : Int)) := by
  refine ⟨?_, by decide, by decide, by decide⟩
  decide

/-- Witness for C1 on the concrete transition `(0,0) -> (0x400,0)`,
step_size 16, acc 2, dec 1: the first emitted sample `(0x40,0)` lies in the
box. -/
theorem C1_bounding_box_witness :
    interp_init (mkTransition ⟨0, 0⟩ ⟨1024, 0⟩) 16 2 1 =
      some ⟨⟨256, 0⟩, 0, 4, 2, 1, IState.first⟩ ∧
    ((⟨64, 0⟩ : PointQ) ∈ interpRun 600
      (⟨⟨256, 0⟩, 0, 4, 2, 1, IState.first⟩ : Interp)
      (mkTransition ⟨0, 0⟩ ⟨1024, 0⟩)) ∧
    (min (0 : Int) 1024 - |(256 : Int)| ≤ 64 ∧
      (64 : Int) ≤ max (0 : Int) 1024 + |(256 : Int)| ∧
      min (0 : Int) 0 - |(0 : Int)| ≤ 0 ∧
      (0 : Int) ≤ max (0 : Int) 0 + |(0 : Int)|) :=
  ⟨by decide, by decide,
    C1_bounding_box ⟨0, 0⟩ ⟨1024, 0⟩ 16 2 1
      ⟨⟨256, 0⟩, 0, 4, 2, 1, IState.first⟩ ⟨64, 0⟩ (by decide) (by decide)
      (by decide) (by decide) (by decide) (by decide) (by omega) (by omega)
      (by omega) (by omega) (by decide) (by decide)⟩
